import Mathlib

/-!
Verification of the structural comparison engine of the api-comparison
repository (src/libs/comparison_engine.py) against its specification.

Python JSON values are modelled by the inductive type `JVal`.  Python `None`
is `JVal.null` (Python uses the same object for an absent body and for JSON
null).  Python distinguishes `bool`, `int` and `float` as separate runtime
types, and the engine compares values by `type(x)`, so the embedding keeps
the three constructors separate and `typeName` returns Python's
`type(x).__name__`.

Python `dict` preserves insertion order with unique keys; it is modelled as
an association list.  Python `set` iteration order is unspecified (hash
based); everywhere the source iterates over a set of keys the embedding uses
a deterministic first-occurrence order (`pyNub`), which only affects the
order of emitted records, never their multiset, and no claim below depends
on record order.
-/

inductive JVal : Type where
  | null : JVal
  | bool : Bool → JVal
  | int : Int → JVal
  | float : Rat → JVal
  | str : String → JVal
  | list : List JVal → JVal
  | dict : List (String × JVal) → JVal

/-- Python `type(x).__name__` for the values the engine can receive. -/
def typeName : JVal → String
  | .null => "NoneType"
  | .bool _ => "bool"
  | .int _ => "int"
  | .float _ => "float"
  | .str _ => "str"
  | .list _ => "list"
  | .dict _ => "dict"

/-- The key/value pairs of a Python dict (`item.items()`); `[]` on non-dicts
(the engine only calls it on values already filtered to be dicts). -/
def dictPairs : JVal → List (String × JVal)
  | .dict kvs => kvs
  | _ => []

/-- The elements of a Python list; `[]` on non-lists (the engine only calls
it on values already filtered to be lists). -/
def listElems : JVal → List JVal
  | .list xs => xs
  | _ => []

/-- Python truthiness (`bool(x)`) of a JSON value, as used by
`if legacy_req['body'] or nextgen_req['body']`. -/
def pyTruthy : JVal → Bool
  | .null => false
  | .bool b => b
  | .int n => decide (n ≠ 0)
  | .float q => decide (q ≠ 0)
  | .str s => decide (s ≠ "")
  | .list xs => decide (xs.length ≠ 0)
  | .dict kvs => decide (kvs.length ≠ 0)

/-- Helper for `pyNub`: keeps the elements not yet seen, in order. -/
def pyNubAux : List String → List String → List String
  | _, [] => []
  | seen, x :: xs =>
    if x ∈ seen then pyNubAux seen xs else x :: pyNubAux (x :: seen) xs

/-- First-occurrence deduplication.  Python dicts keep the insertion order of
first occurrences, so iterating `dict.keys()` (and, in this embedding, sets,
whose real order is unspecified) is modelled with this order. -/
def pyNub (l : List String) : List String := pyNubAux [] l

theorem mem_pyNubAux {a : String} :
    ∀ {l seen : List String}, a ∈ pyNubAux seen l ↔ a ∈ l ∧ a ∉ seen := by
  intro l
  induction l with
  | nil => simp [pyNubAux]
  | cons x xs ih =>
    intro seen
    rw [pyNubAux]
    by_cases hx : x ∈ seen
    · rw [if_pos hx, ih]
      constructor
      · rintro ⟨h1, h2⟩
        exact ⟨List.mem_cons_of_mem _ h1, h2⟩
      · rintro ⟨h1, h2⟩
        rcases List.mem_cons.mp h1 with rfl | h1
        · exact absurd hx h2
        · exact ⟨h1, h2⟩
    · rw [if_neg hx]
      constructor
      · intro hmem
        rcases List.mem_cons.mp hmem with rfl | hmem
        · exact ⟨List.mem_cons_self _ _, hx⟩
        · rcases ih.mp hmem with ⟨h1, h2⟩
          exact ⟨List.mem_cons_of_mem _ h1, fun hs => h2 (List.mem_cons_of_mem _ hs)⟩
      · rintro ⟨h1, h2⟩
        rcases List.mem_cons.mp h1 with rfl | h1
        · exact List.mem_cons_self _ _
        · by_cases hax : a = x
          · subst hax
            exact List.mem_cons_self _ _
          · refine List.mem_cons_of_mem _ (ih.mpr ⟨h1, ?_⟩)
            intro hs
            rcases List.mem_cons.mp hs with h | h
            · exact hax h
            · exact h2 h

theorem mem_pyNub {a : String} {l : List String} : a ∈ pyNub l ↔ a ∈ l := by
  rw [pyNub, mem_pyNubAux]
  simp

theorem pyNubAux_nodup : ∀ (l seen : List String), (pyNubAux seen l).Nodup := by
  intro l
  induction l with
  | nil => intro seen; simp [pyNubAux]
  | cons x xs ih =>
    intro seen
    rw [pyNubAux]
    by_cases hx : x ∈ seen
    · rw [if_pos hx]; exact ih seen
    · rw [if_neg hx]
      refine List.nodup_cons.mpr ⟨?_, ih (x :: seen)⟩
      intro hmem
      exact (mem_pyNubAux.mp hmem).2 (.head _)

theorem pyNub_nodup (l : List String) : (pyNub l).Nodup := pyNubAux_nodup l []

/-- One comparison step of Python `max`: the running best is replaced only
on a strictly greater key. -/
def pyMaxStep (f : String → Nat) (best t2 : String) : String :=
  if f t2 > f best then t2 else best

/-- Python `max(xs, key=f)`: the first element attaining the maximum of `f`. -/
def pyMaxFirst (l : List String) (f : String → Nat) : String :=
  match l with
  | [] => ""
  | t :: ts => ts.foldl (pyMaxStep f) t

theorem pyMaxFirst_mem (l : List String) (f : String → Nat) (h : l ≠ []) :
    pyMaxFirst l f ∈ l := by
  match l with
  | t :: ts =>
    rw [pyMaxFirst]
    clear h
    induction ts generalizing t with
    | nil => simp
    | cons t2 ts ih =>
      simp only [List.foldl_cons, pyMaxStep]
      by_cases h2 : f t2 > f t
      · simp only [if_pos h2]
        have := ih t2
        simp only [List.mem_cons] at this ⊢
        tauto
      · simp only [if_neg h2]
        have := ih t
        simp only [List.mem_cons] at this ⊢
        tauto

/- Depth of a JSON value (primitive depth 0); the well-founded measure for
the engine's recursions. -/
mutual
def jdepth : JVal → Nat
  | .null => 0
  | .bool _ => 0
  | .int _ => 0
  | .float _ => 0
  | .str _ => 0
  | .list xs => 1 + maxDepthL xs
  | .dict kvs => 1 + maxDepthKV kvs
def maxDepthL : List JVal → Nat
  | [] => 0
  | x :: xs => max (jdepth x) (maxDepthL xs)
def maxDepthKV : List (String × JVal) → Nat
  | [] => 0
  | p :: ps => max (jdepth p.2) (maxDepthKV ps)
end

theorem jdepth_le_maxDepthL {x : JVal} : ∀ {l : List JVal}, x ∈ l → jdepth x ≤ maxDepthL l := by
  intro l hx
  induction l with
  | nil => cases hx
  | cons y ys ih =>
    rw [maxDepthL]
    rcases List.mem_cons.mp hx with rfl | h
    · exact Nat.le_max_left _ _
    · exact le_trans (ih h) (Nat.le_max_right _ _)

theorem jdepth_snd_le_maxDepthKV {p : String × JVal} :
    ∀ {l : List (String × JVal)}, p ∈ l → jdepth p.2 ≤ maxDepthKV l := by
  intro l hp
  induction l with
  | nil => cases hp
  | cons q qs ih =>
    rw [maxDepthKV]
    rcases List.mem_cons.mp hp with rfl | h
    · exact Nat.le_max_left _ _
    · exact le_trans (ih h) (Nat.le_max_right _ _)

theorem maxDepthL_lt_of_forall {l : List JVal} {d : Nat} (hd : 0 < d)
    (h : ∀ x ∈ l, jdepth x < d) : maxDepthL l < d := by
  induction l with
  | nil => simpa [maxDepthL] using hd
  | cons y ys ih =>
    rw [maxDepthL]
    exact max_lt (h y (.head _)) (ih fun x hx => h x (.tail _ hx))

theorem maxDepthL_le_of_forall {l : List JVal} {d : Nat}
    (h : ∀ x ∈ l, jdepth x ≤ d) : maxDepthL l ≤ d := by
  induction l with
  | nil => simp [maxDepthL]
  | cons y ys ih =>
    rw [maxDepthL]
    exact max_le (h y (.head _)) (ih fun x hx => h x (.tail _ hx))

/-- A member of a dict's value list is strictly shallower than the dict. -/
theorem jdepth_value_lt_dict {k : String} {v : JVal} {kvs : List (String × JVal)}
    (h : (k, v) ∈ kvs) : jdepth v < jdepth (.dict kvs) := by
  have := jdepth_snd_le_maxDepthKV h
  simp only at this
  rw [jdepth]
  omega

/-- A member of a list is strictly shallower than the list. -/
theorem jdepth_elem_lt_list {v : JVal} {xs : List JVal}
    (h : v ∈ xs) : jdepth v < jdepth (.list xs) := by
  have := jdepth_le_maxDepthL h
  rw [jdepth]
  omega

theorem typeName_eq_dict {v : JVal} (h : typeName v = "dict") :
    ∃ kvs, v = JVal.dict kvs := by
  cases v
  case dict kvs => exact ⟨kvs, rfl⟩
  all_goals (simp only [typeName] at h; exact absurd h (by decide))

theorem typeName_eq_list {v : JVal} (h : typeName v = "list") :
    ∃ xs, v = JVal.list xs := by
  cases v
  case list xs => exact ⟨xs, rfl⟩
  all_goals (simp only [typeName] at h; exact absurd h (by decide))

/-- The distinct type tags of the items, in first-occurrence order (the key
order of the Python dict `type_counts` built by the single pass of
`extract_common_list_structure`). -/
def tagList (items : List JVal) : List String := pyNub (items.map typeName)

/-- `type_counts[t]`: the number of items whose Python type name is `t`. -/
def tagCount (items : List JVal) (t : String) : Nat :=
  items.countP (fun it => typeName it == t)

/-- `most_common_type = max(type_counts.items(), key=lambda x: x[1])[0]`:
first tag (in dict insertion order, i.e. first-occurrence order) with the
maximal count. -/
def mostCommonType (items : List JVal) : String :=
  pyMaxFirst (tagList items) (tagCount items)

/-- `most_common_items = type_items[most_common_type]` (input order). -/
def majorityItems (items : List JVal) : List JVal :=
  items.filter (fun it => typeName it == mostCommonType items)

/-- The concatenated `item.items()` pairs of all majority-type dict items, in
iteration order; the dicts `key_counts` and `key_structures` of the source
are both derived from this sequence. -/
def majPairs (items : List JVal) : List (String × JVal) :=
  (majorityItems items).flatMap dictPairs

/-- Keys of `key_counts`, in insertion (first-occurrence) order. -/
def dictKeysOf (items : List JVal) : List String :=
  pyNub ((majPairs items).map Prod.fst)

/-- `key_counts[k]`. -/
def keyCount (items : List JVal) (k : String) : Nat :=
  (majPairs items).countP (fun pr => pr.1 == k)

/-- `key_structures[k]`: every observed value of key `k`, in order. -/
def keyValues (items : List JVal) (k : String) : List JVal :=
  (majPairs items).filterMap (fun pr => if pr.1 == k then some pr.2 else none)

/-- `most_common_value_type = max(set(value_types), key=value_types.count)`.
The source iterates a Python set here, whose order is unspecified (hash
randomized), so ties between value types are order-unspecified in the
source; the embedding fixes the first-occurrence order.  No claim depends on
this tie. -/
def mcValueType (items : List JVal) (k : String) : String :=
  pyMaxFirst (pyNub ((keyValues items k).map typeName))
    (fun t => ((keyValues items k).map typeName).countP (fun u => u == t))

/-- `same_type_values = [v for v in values if type(v).__name__ == most_common_value_type]`. -/
def sameTypedValues (items : List JVal) (k : String) : List JVal :=
  (keyValues items k).filter (fun v => typeName v == mcValueType items k)

theorem tagList_ne_nil {items : List JVal} (h : items ≠ []) : tagList items ≠ [] := by
  match items with
  | it :: rest =>
    rw [tagList, List.map_cons, pyNub]
    simp [pyNubAux]

theorem mostCommonType_mem_tags {items : List JVal} (h : items ≠ []) :
    mostCommonType items ∈ items.map typeName := by
  have := pyMaxFirst_mem (tagList items) (tagCount items) (tagList_ne_nil h)
  exact mem_pyNub.mp this

theorem exists_majority_item {items : List JVal} (h : items ≠ []) :
    ∃ it ∈ items, typeName it = mostCommonType items := by
  rcases List.mem_map.mp (mostCommonType_mem_tags h) with ⟨it, hit, hty⟩
  exact ⟨it, hit, hty⟩

theorem mem_majorityItems {items : List JVal} {it : JVal}
    (h : it ∈ majorityItems items) :
    it ∈ items ∧ typeName it = mostCommonType items := by
  have := List.mem_filter.mp h
  exact ⟨this.1, by simpa using this.2⟩

theorem mem_keyValues_depth {items : List JVal} {k : String} {v : JVal}
    (hv : v ∈ keyValues items k) (hmc : mostCommonType items = "dict") :
    jdepth v < maxDepthL items := by
  rcases List.mem_filterMap.mp hv with ⟨pr, hpr, hif⟩
  have hv2 : pr.2 = v := by
    by_cases hk : pr.1 == k
    · simpa [hk] using hif
    · simp [hk] at hif
  subst hv2
  rcases List.mem_flatMap.mp hpr with ⟨it, hit, hprit⟩
  rcases mem_majorityItems hit with ⟨hitems, hty⟩
  rcases typeName_eq_dict (hty.trans hmc) with ⟨kvs, rfl⟩
  have h1 : jdepth pr.2 < jdepth (JVal.dict kvs) := by
    have : (pr.1, pr.2) ∈ kvs := by simpa [dictPairs] using hprit
    exact jdepth_value_lt_dict this
  have h2 : jdepth (JVal.dict kvs) ≤ maxDepthL items := jdepth_le_maxDepthL hitems
  omega

theorem maxDepthL_pos_of_dict {items : List JVal} (h0 : items ≠ [])
    (hmc : mostCommonType items = "dict") : 0 < maxDepthL items := by
  rcases exists_majority_item h0 with ⟨it, hit, hty⟩
  rcases typeName_eq_dict (hty.trans hmc) with ⟨kvs, rfl⟩
  have h1 : 0 < jdepth (JVal.dict kvs) := by rw [jdepth]; omega
  have h2 := jdepth_le_maxDepthL hit
  omega

theorem sameTyped_depth_lt (items : List JVal) (k : String) (h0 : items ≠ [])
    (hmc : mostCommonType items = "dict") :
    maxDepthL (sameTypedValues items k) < maxDepthL items := by
  apply maxDepthL_lt_of_forall (maxDepthL_pos_of_dict h0 hmc)
  intro v hv
  exact mem_keyValues_depth (List.mem_filter.mp hv).1 hmc

theorem nested_depth_lt (items : List JVal) (h0 : items ≠ [])
    (hmc : mostCommonType items = "list") :
    maxDepthL ((majorityItems items).flatMap listElems) < maxDepthL items := by
  have hpos : 0 < maxDepthL items := by
    rcases exists_majority_item h0 with ⟨it, hit, hty⟩
    rcases typeName_eq_list (hty.trans hmc) with ⟨xs, rfl⟩
    have h1 : 0 < jdepth (JVal.list xs) := by rw [jdepth]; omega
    have h2 := jdepth_le_maxDepthL hit
    omega
  apply maxDepthL_lt_of_forall hpos
  intro v hv
  rcases List.mem_flatMap.mp hv with ⟨it, hit, hvit⟩
  rcases mem_majorityItems hit with ⟨hitems, hty⟩
  rcases typeName_eq_list (hty.trans hmc) with ⟨xs, rfl⟩
  have h1 : jdepth v < jdepth (JVal.list xs) :=
    jdepth_elem_lt_list (by simpa [listElems] using hvit)
  have h2 := jdepth_le_maxDepthL hitems
  omega

/-- `extract_common_list_structure` (src/libs/comparison_engine.py, lines
36-120): majority-vote inference of the common structure of a list of
example items.  Returned structures are themselves `JVal`s, as in the
source, where type names are plain Python strings and shapes are dicts and
singleton lists. -/
def extract_common_list_structure (items : List JVal) : JVal :=
  if h0 : items.length = 0 then JVal.list []
  else if hmc : mostCommonType items = "dict" then
    JVal.dict ((dictKeysOf items).filterMap (fun k =>
      if (keyCount items k : ℚ) > ((majorityItems items).length : ℚ) / 2 then
        (if 0 < (keyValues items k).length then
          (if mcValueType items k = "dict" then
            some (k, extract_common_list_structure (sameTypedValues items k))
          else if mcValueType items k = "list" then
            some (k, extract_common_list_structure (sameTypedValues items k))
          else some (k, JVal.str (mcValueType items k)))
        else none)
      else none))
  else if hml : mostCommonType items = "list" then
    (if 0 < ((majorityItems items).flatMap listElems).length then
      JVal.list [extract_common_list_structure ((majorityItems items).flatMap listElems)]
    else JVal.list [])
  else JVal.str (mostCommonType items)
termination_by maxDepthL items
decreasing_by
  · exact sameTyped_depth_lt items k (by simpa using h0) hmc
  · exact sameTyped_depth_lt items k (by simpa using h0) hmc
  · exact nested_depth_lt items (by simpa using h0) hml

/-- The Python float test `count > len(most_common_items) / 2` coincides with
the integer test `2 * count > len` (the comparison of a small integer count
against `len / 2` is exact in floating point). -/
theorem threshold_iff (c n : Nat) : ((c : ℚ) > (n : ℚ) / 2) ↔ 2 * c > n := by
  constructor
  · intro h
    have h2 : (n : ℚ) < (c : ℚ) * 2 := (div_lt_iff₀ (by norm_num)).mp h
    have h3 : (n : ℚ) < ((2 * c : Nat) : ℚ) := by push_cast; linarith
    exact_mod_cast h3
  · intro h
    have h3 : (n : ℚ) < ((2 * c : Nat) : ℚ) := by exact_mod_cast h
    rw [gt_iff_lt, div_lt_iff₀ (by norm_num : (0:ℚ) < 2)]
    push_cast at h3
    linarith

/-- Computation-friendly form of the majority threshold condition of
`extract_common_list_structure`. -/
theorem ecls_cond_eq (items : List JVal) (k : String) :
    ((keyCount items k : ℚ) > ((majorityItems items).length : ℚ) / 2)
      = (2 * keyCount items k > (majorityItems items).length) :=
  propext (threshold_iff _ _)

theorem pyNub_ne_nil {l : List String} (h : l ≠ []) : pyNub l ≠ [] := by
  match l with
  | x :: xs =>
    rw [pyNub, pyNubAux]
    simp

theorem maxDepthKV_le_of_forall {l : List (String × JVal)} {d : Nat}
    (h : ∀ p ∈ l, jdepth p.2 ≤ d) : maxDepthKV l ≤ d := by
  induction l with
  | nil => simp [maxDepthKV]
  | cons q qs ih =>
    rw [maxDepthKV]
    exact max_le (h q (.head _)) (ih fun p hp => h p (.tail _ hp))

theorem maxDepthL_pos_of_list {items : List JVal} (h0 : items ≠ [])
    (hml : mostCommonType items = "list") : 0 < maxDepthL items := by
  rcases exists_majority_item h0 with ⟨it, hit, hty⟩
  rcases typeName_eq_list (hty.trans hml) with ⟨xs, rfl⟩
  have h1 : 0 < jdepth (JVal.list xs) := by rw [jdepth]; omega
  have h2 := jdepth_le_maxDepthL hit
  omega

theorem sameTypedValues_ne_nil {items : List JVal} {k : String}
    (hpos : 0 < (keyValues items k).length) : sameTypedValues items k ≠ [] := by
  have hvne : keyValues items k ≠ [] := by
    intro hnil
    rw [hnil] at hpos
    simp at hpos
  have htags : (keyValues items k).map typeName ≠ [] := by
    simpa using hvne
  have hmem : mcValueType items k ∈ (keyValues items k).map typeName := by
    have h2 : mcValueType items k ∈ pyNub ((keyValues items k).map typeName) := by
      rw [mcValueType]
      exact pyMaxFirst_mem _ _ (pyNub_ne_nil htags)
    exact mem_pyNub.mp h2
  rcases List.mem_map.mp hmem with ⟨v, hv, hty⟩
  have hvmem : v ∈ sameTypedValues items k := by
    rw [sameTypedValues]
    exact List.mem_filter.mpr ⟨hv, by simp [hty]⟩
  exact List.ne_nil_of_mem hvmem

/-- The inferred structure of a non-empty item list is at most as deep as the
deepest item.  This bounds the second, structure-on-structure pass of
`deep_compare_json`. -/
theorem ecls_depth_aux : ∀ (n : Nat) (items : List JVal), maxDepthL items = n → items ≠ [] →
    jdepth (extract_common_list_structure items) ≤ maxDepthL items := by
  intro n
  induction n using Nat.strong_induction_on with
  | _ n ih =>
    intro items hn hne
    have hlen : ¬(items.length = 0) := by
      intro h
      exact hne (List.length_eq_zero.mp h)
    rw [extract_common_list_structure, dif_neg hlen]
    by_cases hmc : mostCommonType items = "dict"
    · rw [dif_pos hmc]
      have hpos := maxDepthL_pos_of_dict hne hmc
      rw [jdepth]
      have hbound : maxDepthKV ((dictKeysOf items).filterMap (fun k =>
          if (keyCount items k : ℚ) > ((majorityItems items).length : ℚ) / 2 then
            (if 0 < (keyValues items k).length then
              (if mcValueType items k = "dict" then
                some (k, extract_common_list_structure (sameTypedValues items k))
              else if mcValueType items k = "list" then
                some (k, extract_common_list_structure (sameTypedValues items k))
              else some (k, JVal.str (mcValueType items k)))
            else none)
          else none)) ≤ maxDepthL items - 1 := by
        apply maxDepthKV_le_of_forall
        intro p hp
        rcases List.mem_filterMap.mp hp with ⟨k, hk, hf⟩
        by_cases h1 : (keyCount items k : ℚ) > ((majorityItems items).length : ℚ) / 2
        · by_cases h2 : 0 < (keyValues items k).length
          · have hsne := sameTypedValues_ne_nil h2
            have hlt := sameTyped_depth_lt items k hne hmc
            by_cases h3 : mcValueType items k = "dict"
            · simp only [if_pos h1, if_pos h2, if_pos h3, Option.some_inj] at hf
              rw [← hf]
              show jdepth (extract_common_list_structure (sameTypedValues items k))
                ≤ maxDepthL items - 1
              have := ih (maxDepthL (sameTypedValues items k)) (by omega)
                (sameTypedValues items k) rfl hsne
              omega
            · by_cases h4 : mcValueType items k = "list"
              · simp only [if_pos h1, if_pos h2, if_neg h3, if_pos h4, Option.some_inj] at hf
                rw [← hf]
                show jdepth (extract_common_list_structure (sameTypedValues items k))
                  ≤ maxDepthL items - 1
                have := ih (maxDepthL (sameTypedValues items k)) (by omega)
                  (sameTypedValues items k) rfl hsne
                omega
              · simp only [if_pos h1, if_pos h2, if_neg h3, if_neg h4, Option.some_inj] at hf
                rw [← hf]
                show jdepth (JVal.str (mcValueType items k)) ≤ maxDepthL items - 1
                simp only [jdepth]
                omega
          · simp only [if_pos h1, if_neg h2] at hf
            exact Option.noConfusion hf
        · simp only [if_neg h1] at hf
          exact Option.noConfusion hf
      omega
    · rw [dif_neg hmc]
      by_cases hml : mostCommonType items = "list"
      · rw [dif_pos hml]
        by_cases hnp : 0 < ((majorityItems items).flatMap listElems).length
        · rw [if_pos hnp]
          have hnne : (majorityItems items).flatMap listElems ≠ [] := by
            intro h
            rw [h] at hnp
            simp at hnp
          have hlt := nested_depth_lt items hne hml
          have := ih (maxDepthL ((majorityItems items).flatMap listElems)) (by omega)
            ((majorityItems items).flatMap listElems) rfl hnne
          simp only [jdepth, maxDepthL]
          omega
        · rw [if_neg hnp]
          have hpos := maxDepthL_pos_of_list hne hml
          simp only [jdepth, maxDepthL]
          omega
      · rw [dif_neg hml]
        simp only [jdepth]
        omega

theorem ecls_depth {items : List JVal} (hne : items ≠ []) :
    jdepth (extract_common_list_structure items) ≤ maxDepthL items :=
  ecls_depth_aux (maxDepthL items) items rfl hne

/-- One structural discrepancy: the dict literals appended by
`deep_compare_json` (source lines 140-147, 155-166, 181-200).  `kind` is the
source's `'type'` entry; fields a record kind does not carry are `none`. -/
structure DiffRecord where
  kind : String
  path : String
  legacy : Option String
  nextgen : Option String
  legacy_value : Option JVal
  nextgen_value : Option JVal

/-- The `type_mismatch` record (source lines 140-147); `'path': path or
'root'` is Python string truthiness. -/
def mismatchRecord (path : String) (obj1 obj2 : JVal) : DiffRecord :=
  ⟨"type_mismatch", (if path = "" then "root" else path), some (typeName obj1),
    some (typeName obj2), some obj1, some obj2⟩

/-- The `added` record (source lines 156-160 and 196-200). -/
def addedRecord (path : String) (v : JVal) : DiffRecord :=
  ⟨"added", path, none, none, none, some v⟩

/-- The `removed` record (source lines 161-166 and 186-190). -/
def removedRecord (path : String) (v : JVal) : DiffRecord :=
  ⟨"removed", path, none, none, some v, none⟩

/-- Python `key in obj` / `obj[key]` on a dict, as an association-list
lookup (a Python dict has unique keys, so the first match is the value). -/
def lookupJ (kvs : List (String × JVal)) (k : String) : Option JVal :=
  (kvs.find? (fun pr => pr.1 == k)).map Prod.snd

/-- `all_keys = set(obj1.keys()) | set(obj2.keys())`; Python set iteration
order is unspecified, modelled in first-occurrence order. -/
def unionKeys (kvs1 kvs2 : List (String × JVal)) : List String :=
  pyNub (kvs1.map Prod.fst ++ kvs2.map Prod.fst)

theorem lookupJ_jdepth {kvs : List (String × JVal)} {k : String} {v : JVal}
    (h : lookupJ kvs k = some v) : jdepth v < jdepth (JVal.dict kvs) := by
  rw [lookupJ] at h
  match hf : kvs.find? (fun pr => pr.1 == k) with
  | none => rw [hf] at h; exact Option.noConfusion h
  | some pr =>
    rw [hf] at h
    have hv : pr.2 = v := by simpa using h
    have hmem : pr ∈ kvs := List.mem_of_find?_eq_some hf
    rw [← hv]
    exact jdepth_value_lt_dict (by simpa using hmem : (pr.1, pr.2) ∈ kvs)

/-- `deep_compare_json` (src/libs/comparison_engine.py, lines 123-209):
recursive structural diff of two JSON values.  Python's
`type(obj1) != type(obj2)` is the `typeName` comparison; the `isinstance`
branches become a match on the two constructors (a mixed-constructor arm is
unreachable once the type names agree, and two same-type primitives fall
through to the final `pass`, contributing nothing). -/
def deep_compare_json (obj1 obj2 : JVal) (path : String) : List DiffRecord :=
  if typeName obj1 ≠ typeName obj2 then
    [mismatchRecord path obj1 obj2]
  else
    match obj1, obj2 with
    | JVal.dict kvs1, JVal.dict kvs2 =>
      (unionKeys kvs1 kvs2).flatMap (fun key =>
        let new_path := if path ≠ "" then path ++ "." ++ key else key
        match hl1 : lookupJ kvs1 key, hl2 : lookupJ kvs2 key with
        | none, some v2 => [addedRecord new_path v2]
        | some v1, none => [removedRecord new_path v1]
        | some v1, some v2 => deep_compare_json v1 v2 new_path
        | none, none => [])
    | JVal.list xs1, JVal.list xs2 =>
      let item_path := if path ≠ "" then path ++ "[*]" else "[*]"
      if h12 : 0 < xs1.length ∧ 0 < xs2.length then
        deep_compare_json (extract_common_list_structure xs1)
          (extract_common_list_structure xs2) item_path
      else if 0 < xs1.length ∧ xs2.length = 0 then
        [removedRecord item_path (extract_common_list_structure xs1)]
      else if xs1.length = 0 ∧ 0 < xs2.length then
        [addedRecord item_path (extract_common_list_structure xs2)]
      else []
    | _, _ => []
termination_by jdepth obj1 + jdepth obj2
decreasing_by
  · have d1 := lookupJ_jdepth hl1
    have d2 := lookupJ_jdepth hl2
    omega
  · have e1 := ecls_depth (List.length_pos.mp h12.1)
    have e2 := ecls_depth (List.length_pos.mp h12.2)
    have j1 : jdepth (JVal.list xs1) = 1 + maxDepthL xs1 := by rw [jdepth]
    have j2 : jdepth (JVal.list xs2) = 1 + maxDepthL xs2 := by rw [jdepth]
    omega

/-- Reflexivity of the structural differ, proven by strong induction on the
depth of the value (the list branch recurses on the inferred structure,
which `ecls_depth` bounds). -/
theorem diff_refl_aux : ∀ (n : Nat) (v : JVal) (p : String), jdepth v ≤ n →
    deep_compare_json v v p = [] := by
  intro n
  induction n using Nat.strong_induction_on with
  | _ n ih =>
    intro v p hv
    match v with
    | JVal.null | JVal.bool _ | JVal.int _ | JVal.float _ | JVal.str _ =>
      rw [deep_compare_json]
      simp
      all_goals exact fun a b h1 h2 => JVal.noConfusion h1
    | JVal.dict kvs =>
      rw [deep_compare_json, if_neg (by simp)]
      apply List.flatMap_eq_nil_iff.mpr
      intro key hkey
      simp only
      match hl : lookupJ kvs key with
      | none => rfl
      | some v1 =>
        have hd := lookupJ_jdepth hl
        have hdn : jdepth (JVal.dict kvs) ≤ n := hv
        exact ih (jdepth v1) (by omega) v1 _ le_rfl
    | JVal.list xs =>
      rw [deep_compare_json, if_neg (by simp)]
      by_cases hx : 0 < xs.length
      · rw [dif_pos ⟨hx, hx⟩]
        have hne : xs ≠ [] := List.length_pos.mp hx
        have he := ecls_depth hne
        have hj : jdepth (JVal.list xs) = 1 + maxDepthL xs := by rw [jdepth]
        exact ih (jdepth (extract_common_list_structure xs)) (by omega) _ _ le_rfl
      · rw [dif_neg (by omega)]
        rw [if_neg (by omega), if_neg (by omega)]

theorem diff_refl (v : JVal) (p : String) : deep_compare_json v v p = [] :=
  diff_refl_aux (jdepth v) v p le_rfl

theorem diff_eq_mismatch {obj1 obj2 : JVal} {path : String} (h : typeName obj1 ≠ typeName obj2) :
    deep_compare_json obj1 obj2 path = [mismatchRecord path obj1 obj2] := by
  rw [deep_compare_json.eq_def, if_pos h]

theorem diff_list_both {xs1 xs2 : List JVal} (path : String)
    (h1 : 0 < xs1.length) (h2 : 0 < xs2.length) :
    deep_compare_json (JVal.list xs1) (JVal.list xs2) path
      = deep_compare_json (extract_common_list_structure xs1)
          (extract_common_list_structure xs2) (if path ≠ "" then path ++ "[*]" else "[*]") := by
  simp only [deep_compare_json]
  rw [if_neg (fun h => h rfl), dif_pos ⟨h1, h2⟩]

theorem diff_list_removed {xs1 xs2 : List JVal} (path : String)
    (h1 : 0 < xs1.length) (h2 : xs2.length = 0) :
    deep_compare_json (JVal.list xs1) (JVal.list xs2) path
      = [removedRecord (if path ≠ "" then path ++ "[*]" else "[*]")
          (extract_common_list_structure xs1)] := by
  simp only [deep_compare_json]
  rw [if_neg (fun h => h rfl), dif_neg (by omega), if_pos ⟨h1, h2⟩]

theorem diff_list_added {xs1 xs2 : List JVal} (path : String)
    (h1 : xs1.length = 0) (h2 : 0 < xs2.length) :
    deep_compare_json (JVal.list xs1) (JVal.list xs2) path
      = [addedRecord (if path ≠ "" then path ++ "[*]" else "[*]")
          (extract_common_list_structure xs2)] := by
  simp only [deep_compare_json]
  rw [if_neg (fun h => h rfl), dif_neg (by omega), if_neg (by omega), if_pos ⟨h1, h2⟩]

/-- Every record the differ emits is one of the three kinds the code
constructs. -/
theorem diff_kinds (a b : JVal) (p : String) :
    ∀ r ∈ deep_compare_json a b p,
      r.kind = "type_mismatch" ∨ r.kind = "added" ∨ r.kind = "removed" := by
  induction a, b, p using deep_compare_json.induct with
  | case1 obj1 obj2 path hty =>
    intro r hr
    rw [diff_eq_mismatch hty] at hr
    simp only [List.mem_singleton] at hr
    subst hr
    exact .inl rfl
  | case2 path kvs1 kvs2 hty ih =>
    intro r hr
    rw [deep_compare_json, if_neg hty] at hr
    rcases List.mem_flatMap.mp hr with ⟨key, hk, hrk⟩
    simp only at hrk
    split at hrk
    · simp only [List.mem_singleton] at hrk
      subst hrk
      exact .inr (.inl rfl)
    · simp only [List.mem_singleton] at hrk
      subst hrk
      exact .inr (.inr rfl)
    · rename_i v1 v2 hl1 hl2
      exact ih key v1 v2 hl1 hl2 r hrk
    · simp at hrk
  | case3 path xs1 xs2 item_path h12 hty ih =>
    intro r hr
    rw [deep_compare_json, if_neg hty] at hr
    simp only at hr
    rw [dif_pos h12] at hr
    exact ih r hr
  | case4 path xs1 xs2 hn12 h12 hty =>
    intro r hr
    rw [deep_compare_json, if_neg hty, dif_neg hn12, if_pos h12] at hr
    simp only [List.mem_singleton] at hr
    subst hr
    exact .inr (.inr rfl)
  | case5 path xs1 xs2 hn12 hn1 h12 hty =>
    intro r hr
    rw [deep_compare_json, if_neg hty, dif_neg hn12, if_neg hn1, if_pos h12] at hr
    simp only [List.mem_singleton] at hr
    subst hr
    exact .inr (.inl rfl)
  | case6 path xs1 xs2 hn12 hn1 hn2 hty =>
    intro r hr
    rw [deep_compare_json, if_neg hty, dif_neg hn12, if_neg hn1, if_neg hn2] at hr
    simp at hr
  | case7 obj1 obj2 path hty hnd hnl =>
    intro r hr
    rw [deep_compare_json.eq_def, if_neg hty] at hr
    rcases obj1 with _ | _ | _ | _ | _ | xs1 | kvs1 <;>
      rcases obj2 with _ | _ | _ | _ | _ | xs2 | kvs2 <;>
      first
        | exact (hnd _ _ rfl rfl).elim
        | exact (hnl _ _ rfl rfl).elim
        | exact absurd hr (by simp)

/-- C1: for every JSON value `v` and path `p`, `deep_compare_json v v p`
returns the empty list of diff records (reflexivity of the structural
differ). -/
theorem C1_diff_reflexivity (v : JVal) (p : String) : deep_compare_json v v p = [] :=
  diff_refl v p

/-- C3: two non-empty arrays whose inferred common element shapes are equal
produce no diff records; their lengths are never compared, only the inferred
structures at `path ++ "[*]"`. -/
theorem C3_equal_shapes_no_diff (xs ys : List JVal) (p : String)
    (hx : 0 < xs.length) (hy : 0 < ys.length)
    (h : extract_common_list_structure xs = extract_common_list_structure ys) :
    deep_compare_json (JVal.list xs) (JVal.list ys) p = [] := by
  rw [diff_list_both p hx hy, h]
  exact diff_refl _ _

/-- Witness for C3 at the spec's own example, `[1,2]` versus `[1,2,3]`. -/
theorem C3_witness :
    0 < ([JVal.int 1, JVal.int 2] : List JVal).length
    ∧ extract_common_list_structure [JVal.int 1, JVal.int 2]
        = extract_common_list_structure [JVal.int 1, JVal.int 2, JVal.int 3]
    ∧ deep_compare_json (JVal.list [JVal.int 1, JVal.int 2])
        (JVal.list [JVal.int 1, JVal.int 2, JVal.int 3]) "" = [] := by
  have h1 : extract_common_list_structure [JVal.int 1, JVal.int 2] = JVal.str "int" := by
    rw [extract_common_list_structure]
    rfl
  have h2 : extract_common_list_structure [JVal.int 1, JVal.int 2, JVal.int 3]
      = JVal.str "int" := by
    rw [extract_common_list_structure]
    rfl
  exact ⟨by decide, h1.trans h2.symm,
    C3_equal_shapes_no_diff _ _ _ (by decide) (by decide) (h1.trans h2.symm)⟩

/-- C4 counterexample: the code tags Python `int` and `float` as distinct
types, so an integer against a floating-point value yields a
`type_mismatch` record, not the empty list the claim demands. -/
theorem C4_counterexample :
    deep_compare_json (JVal.int 1) (JVal.float (3/2)) "price"
        = [mismatchRecord "price" (JVal.int 1) (JVal.float (3/2))]
    ∧ deep_compare_json (JVal.int 1) (JVal.float (3/2)) "price" ≠ [] := by
  constructor
  · exact diff_eq_mismatch (by decide)
  · rw [diff_eq_mismatch (by decide)]
    simp

/-- C4 amended: numeric values carry Python's own type tags (`int` and
`float`), not one common `number` tag.  Two numeric primitives of the same
Python type produce no records; an `int` against a `float` produces exactly
one `type_mismatch` record. -/
theorem C4_numeric_types (p : String) :
    (∀ (a b : Int), deep_compare_json (JVal.int a) (JVal.int b) p = [])
    ∧ (∀ (q r : Rat), deep_compare_json (JVal.float q) (JVal.float r) p = [])
    ∧ (∀ (a : Int) (q : Rat), deep_compare_json (JVal.int a) (JVal.float q) p
        = [mismatchRecord p (JVal.int a) (JVal.float q)])
    ∧ (∀ (q : Rat) (a : Int), deep_compare_json (JVal.float q) (JVal.int a) p
        = [mismatchRecord p (JVal.float q) (JVal.int a)]) := by
  refine ⟨fun a b => ?_, fun q r => ?_, fun a q => ?_, fun q a => ?_⟩
  · rw [deep_compare_json, if_neg (fun h => h rfl)]
    all_goals exact fun _ _ h1 _ => JVal.noConfusion h1
  · rw [deep_compare_json, if_neg (fun h => h rfl)]
    all_goals exact fun _ _ h1 _ => JVal.noConfusion h1
  · exact diff_eq_mismatch (by intro h; simp only [typeName] at h; exact absurd h (by decide))
  · exact diff_eq_mismatch (by intro h; simp only [typeName] at h; exact absurd h (by decide))

/-- C10: every diff record the differ can produce has kind `type_mismatch`,
`added` or `removed`; the `changed` kind of the data model is never
produced. -/
theorem C10_no_changed_kind (a b : JVal) (p : String) :
    (deep_compare_json a b p).all
      (fun r => (r.kind == "type_mismatch" || r.kind == "added" || r.kind == "removed")
        && r.kind != "changed") = true := by
  rw [List.all_eq_true]
  intro r hr
  rcases diff_kinds a b p r hr with h | h | h <;> simp [h]

/-- A left fold of `pyMaxStep` returns the first element attaining the
maximum key: the list splits into a strictly-smaller prefix, the result, and
a no-larger suffix. -/
theorem foldl_max_split (f : String → Nat) :
    ∀ (ts : List String) (t : String),
      ∃ l1 l2, t :: ts = l1 ++ (ts.foldl (pyMaxStep f) t) :: l2
        ∧ (∀ u ∈ l1, f u < f (ts.foldl (pyMaxStep f) t))
        ∧ (∀ u ∈ l2, f u ≤ f (ts.foldl (pyMaxStep f) t)) := by
  intro ts
  induction ts with
  | nil =>
    intro t
    exact ⟨[], [], rfl, by simp, by simp⟩
  | cons t2 ts ih =>
    intro t
    rw [List.foldl_cons]
    by_cases h2 : f t2 > f t
    · rw [show pyMaxStep f t t2 = t2 from if_pos h2]
      rcases ih t2 with ⟨l1, l2, heq, hl1, hl2⟩
      have ht2r : f t2 ≤ f (List.foldl (pyMaxStep f) t2 ts) := by
        cases l1 with
        | nil =>
          rw [List.nil_append] at heq
          rw [← (List.cons.inj heq).1]
        | cons x l1' =>
          rw [List.cons_append] at heq
          have hx : x = t2 := ((List.cons.inj heq).1).symm
          subst hx
          exact le_of_lt (hl1 _ (List.mem_cons_self _ _))
      refine ⟨t :: l1, l2, ?_, ?_, hl2⟩
      · rw [List.cons_append, ← heq]
      · intro u hu
        rcases List.mem_cons.mp hu with rfl | hu
        · exact lt_of_lt_of_le h2 ht2r
        · exact hl1 u hu
    · rw [show pyMaxStep f t t2 = t from if_neg h2]
      rcases ih t with ⟨l1, l2, heq, hl1, hl2⟩
      cases l1 with
      | nil =>
        rw [List.nil_append] at heq
        have hr : List.foldl (pyMaxStep f) t ts = t := ((List.cons.inj heq).1).symm
        have hts : ts = l2 := (List.cons.inj heq).2
        refine ⟨[], t2 :: l2, ?_, by simp, ?_⟩
        · rw [List.nil_append, hr, ← hts]
        · intro u hu
          rcases List.mem_cons.mp hu with rfl | hu
          · rw [hr]
            omega
          · exact hl2 u hu
      | cons x l1' =>
        rw [List.cons_append] at heq
        have hx : x = t := ((List.cons.inj heq).1).symm
        rw [hx] at heq hl1
        have hts : ts = l1' ++ (List.foldl (pyMaxStep f) t ts) :: l2 := (List.cons.inj heq).2
        have htr : f t < f (List.foldl (pyMaxStep f) t ts) := hl1 _ (List.mem_cons_self _ _)
        refine ⟨t :: t2 :: l1', l2, ?_, ?_, hl2⟩
        · rw [List.cons_append, List.cons_append, ← hts]
        · intro u hu
          rcases List.mem_cons.mp hu with rfl | hu
          · exact htr
          · rcases List.mem_cons.mp hu with rfl | hu
            · omega
            · exact hl1 u (List.mem_cons_of_mem _ hu)

/-- Modelled from the claim's tie-break rule, for refutation only: scan the
items once from left to right keeping running counts per tag; the result is
the tag at the first position whose running (prefix) count equals the
maximal final count. -/
def specFirstTagToReachMax (items : List JVal) : String :=
  let tags := items.map typeName
  let m := (tags.map (fun t => tags.countP (fun u => u == t))).foldr max 0
  match (List.range tags.length).find? (fun i =>
      ((tags.take (i+1)).countP (fun u => u == tags.getD i "")) = m) with
  | some i => tags.getD i ""
  | none => ""

/-- C5 counterexample: for `[1, "a", "b", 2]` both tags occur twice.  The
code (Python `max` over the insertion-ordered count dict) picks `"int"`, the
tag whose first occurrence is earliest, while the claim's "first tag to
reach that maximum count during a single pass" is `"str"`, which reaches
count 2 at the third item, before `"int"` does at the fourth. -/
theorem C5_counterexample :
    mostCommonType [JVal.int 1, JVal.str "a", JVal.str "b", JVal.int 2] = "int"
    ∧ specFirstTagToReachMax [JVal.int 1, JVal.str "a", JVal.str "b", JVal.int 2] = "str"
    ∧ extract_common_list_structure [JVal.int 1, JVal.str "a", JVal.str "b", JVal.int 2]
        = JVal.str "int"
    ∧ ("int" : String) ≠ "str" := by
  refine ⟨by decide, by decide, ?_, by decide⟩
  rw [extract_common_list_structure]
  rfl

/-- C5 amended: the majority type is a tag attaining the maximal occurrence
count, and a tie between tags with the same count is broken in favour of the
tag whose first occurrence among the items is earliest (`tagList` is the
first-occurrence order): every tag listed before `mostCommonType` has a
strictly smaller count, every tag after it has no larger count. -/
theorem C5_majority_tie_break (items : List JVal) (h : items ≠ []) :
    ∃ l1 l2, tagList items = l1 ++ mostCommonType items :: l2
      ∧ (∀ u ∈ l1, tagCount items u < tagCount items (mostCommonType items))
      ∧ (∀ u ∈ l2, tagCount items u ≤ tagCount items (mostCommonType items)) := by
  have hne := tagList_ne_nil h
  match hl : tagList items with
  | [] => exact absurd hl hne
  | t :: ts =>
    have hmc : mostCommonType items = ts.foldl (pyMaxStep (tagCount items)) t := by
      rw [mostCommonType, hl, pyMaxFirst]
    rw [hmc]
    exact foldl_max_split (tagCount items) ts t

/-- Witness for C5's amended tie-break at the counterexample input. -/
theorem C5_witness :
    ∃ l1 l2, tagList [JVal.int 1, JVal.str "a", JVal.str "b", JVal.int 2]
        = l1 ++ mostCommonType [JVal.int 1, JVal.str "a", JVal.str "b", JVal.int 2] :: l2
      ∧ (∀ u ∈ l1, tagCount [JVal.int 1, JVal.str "a", JVal.str "b", JVal.int 2] u
          < tagCount [JVal.int 1, JVal.str "a", JVal.str "b", JVal.int 2]
              (mostCommonType [JVal.int 1, JVal.str "a", JVal.str "b", JVal.int 2]))
      ∧ (∀ u ∈ l2, tagCount [JVal.int 1, JVal.str "a", JVal.str "b", JVal.int 2] u
          ≤ tagCount [JVal.int 1, JVal.str "a", JVal.str "b", JVal.int 2]
              (mostCommonType [JVal.int 1, JVal.str "a", JVal.str "b", JVal.int 2])) :=
  C5_majority_tie_break [JVal.int 1, JVal.str "a", JVal.str "b", JVal.int 2]
    (List.cons_ne_nil _ _)

/-- The number of majority-type items containing key `k` (the claim's
"presence count"; `key_counts[k]` coincides with it because a Python dict
lists each key once). -/
def presenceCount (items : List JVal) (k : String) : Nat :=
  (majorityItems items).countP (fun it => (dictPairs it).any (fun pr => pr.1 == k))

theorem majorityItems_ne_nil {items : List JVal} (h : items ≠ []) :
    majorityItems items ≠ [] := by
  rcases exists_majority_item h with ⟨it, hit, hty⟩
  exact List.ne_nil_of_mem (List.mem_filter.mpr ⟨hit, by simp [hty]⟩)

theorem keyValues_length (items : List JVal) (k : String) :
    (keyValues items k).length = keyCount items k := by
  rw [keyValues, keyCount]
  induction majPairs items with
  | nil => simp
  | cons p ps ih =>
    by_cases hp : p.1 = k
    · simp [List.filterMap_cons, List.countP_cons, hp] at ih ⊢
      omega
    · simp [List.filterMap_cons, List.countP_cons, hp] at ih ⊢
      omega

theorem countP_key_nodup (l : List (String × JVal)) (k : String)
    (h : (l.map Prod.fst).Nodup) :
    l.countP (fun pr => pr.1 == k) = if l.any (fun pr => pr.1 == k) then 1 else 0 := by
  induction l with
  | nil => simp
  | cons p ps ih =>
    rw [List.map_cons, List.nodup_cons] at h
    by_cases hp : p.1 = k
    · have hps : ps.countP (fun pr => pr.1 == k) = 0 := by
        rw [List.countP_eq_zero]
        intro pr hpr hbe
        have hpr1 : pr.1 = k := by simpa using hbe
        exact h.1 (List.mem_map.mpr ⟨pr, hpr, by rw [hpr1, hp]⟩)
      simp [List.countP_cons, hp, hps, List.any_cons]
    · have hps := ih h.2
      have hb : (p.1 == k) = false := beq_eq_false_iff_ne.mpr hp
      rw [List.countP_cons, List.any_cons, hb, Bool.false_or, hps]
      simp [hb]

theorem countP_flatMap_key (k : String) : ∀ (l : List JVal),
    (∀ it ∈ l, ((dictPairs it).map Prod.fst).Nodup) →
    (l.flatMap dictPairs).countP (fun pr => pr.1 == k)
      = l.countP (fun it => (dictPairs it).any (fun pr => pr.1 == k)) := by
  intro l
  induction l with
  | nil => simp
  | cons it l ih =>
    intro h
    rw [List.flatMap_cons, List.countP_append, List.countP_cons]
    rw [countP_key_nodup _ _ (h it (List.mem_cons_self _ _))]
    rw [ih (fun x hx => h x (List.mem_cons_of_mem _ hx))]
    by_cases ha : (dictPairs it).any (fun pr => pr.1 == k)
    · simp only [ha, if_true, if_pos]
      omega
    · simp [ha]

theorem keyCount_eq_presence (items : List JVal) (k : String)
    (h : ∀ it ∈ majorityItems items, ((dictPairs it).map Prod.fst).Nodup) :
    keyCount items k = presenceCount items k := by
  rw [keyCount, presenceCount, majPairs]
  exact countP_flatMap_key k (majorityItems items) h

theorem mem_dictKeysOf_iff (items : List JVal) (k : String) :
    k ∈ dictKeysOf items ↔ 0 < keyCount items k := by
  rw [dictKeysOf, mem_pyNub, keyCount, List.countP_pos_iff]
  constructor
  · intro hm
    rcases List.mem_map.mp hm with ⟨pr, hpr, hk⟩
    exact ⟨pr, hpr, by simp [hk]⟩
  · rintro ⟨pr, hpr, hk⟩
    exact List.mem_map.mpr ⟨pr, hpr, by simpa using hk⟩

/-- C2: when the majority type is `dict` and every majority-type item has
unique keys (a Python dict invariant), a key appears in the inferred common
shape iff its presence count among majority-type items strictly exceeds half
their number; a 50 percent-exact count is excluded. -/
theorem C2_strict_majority_keys (items : List JVal) (k : String)
    (hne : items ≠ []) (hmc : mostCommonType items = "dict")
    (hnodup : ∀ it ∈ majorityItems items, ((dictPairs it).map Prod.fst).Nodup) :
    (∃ s, (k, s) ∈ dictPairs (extract_common_list_structure items))
      ↔ (presenceCount items k : ℚ) > ((majorityItems items).length : ℚ) / 2 := by
  have hlen : ¬(items.length = 0) := fun h => hne (List.length_eq_zero.mp h)
  have hE : dictPairs (extract_common_list_structure items)
      = (dictKeysOf items).filterMap (fun k' =>
          if (keyCount items k' : ℚ) > ((majorityItems items).length : ℚ) / 2 then
            (if 0 < (keyValues items k').length then
              (if mcValueType items k' = "dict" then
                some (k', extract_common_list_structure (sameTypedValues items k'))
              else if mcValueType items k' = "list" then
                some (k', extract_common_list_structure (sameTypedValues items k'))
              else some (k', JVal.str (mcValueType items k')))
            else none)
          else none) := by
    rw [extract_common_list_structure, dif_neg hlen, dif_pos hmc, dictPairs]
  rw [hE]
  constructor
  · rintro ⟨s, hs⟩
    rcases List.mem_filterMap.mp hs with ⟨k', hk', hf⟩
    by_cases h1 : (presenceCount items k' : ℚ) > ((majorityItems items).length : ℚ) / 2
    · have hkk : k' = k := by
        rw [keyCount_eq_presence items k' hnodup] at hf
        rw [if_pos h1] at hf
        by_cases h2 : 0 < (keyValues items k').length
        · rw [if_pos h2] at hf
          by_cases h3 : mcValueType items k' = "dict"
          · rw [if_pos h3] at hf
            exact (Prod.mk.inj (Option.some_inj.mp hf)).1
          · rw [if_neg h3] at hf
            by_cases h4 : mcValueType items k' = "list"
            · rw [if_pos h4] at hf
              exact (Prod.mk.inj (Option.some_inj.mp hf)).1
            · rw [if_neg h4] at hf
              exact (Prod.mk.inj (Option.some_inj.mp hf)).1
        · rw [if_neg h2] at hf
          exact Option.noConfusion hf
      rw [← hkk]
      exact h1
    · rw [keyCount_eq_presence items k' hnodup, if_neg h1] at hf
      exact Option.noConfusion hf
  · intro hq
    have hmaj : majorityItems items ≠ [] := majorityItems_ne_nil hne
    have hmlen : 0 < (majorityItems items).length := List.length_pos.mpr hmaj
    have h2c : 2 * presenceCount items k > (majorityItems items).length :=
      (threshold_iff _ _).mp hq
    have hc : 0 < keyCount items k := by
      rw [keyCount_eq_presence items k hnodup]
      omega
    have hkmem : k ∈ dictKeysOf items := (mem_dictKeysOf_iff items k).mpr hc
    have hvpos : 0 < (keyValues items k).length := by
      rw [keyValues_length]
      exact hc
    have hqk : (keyCount items k : ℚ) > ((majorityItems items).length : ℚ) / 2 := by
      rw [keyCount_eq_presence items k hnodup]
      exact hq
    by_cases h3 : mcValueType items k = "dict"
    · refine ⟨extract_common_list_structure (sameTypedValues items k), ?_⟩
      refine List.mem_filterMap.mpr ⟨k, hkmem, ?_⟩
      rw [if_pos hqk, if_pos hvpos, if_pos h3]
    · by_cases h4 : mcValueType items k = "list"
      · refine ⟨extract_common_list_structure (sameTypedValues items k), ?_⟩
        refine List.mem_filterMap.mpr ⟨k, hkmem, ?_⟩
        rw [if_pos hqk, if_pos hvpos, if_neg h3, if_pos h4]
      · refine ⟨JVal.str (mcValueType items k), ?_⟩
        refine List.mem_filterMap.mpr ⟨k, hkmem, ?_⟩
        rw [if_pos hqk, if_pos hvpos, if_neg h3, if_neg h4]

/-- Witness for C2 at the claim's own instances: a key in 1 of 2 dict
examples is excluded; a key in 2 of 3 is included. -/
theorem C2_witness :
    (¬ ∃ s, ("b", s) ∈ dictPairs (extract_common_list_structure
        [JVal.dict [("a", JVal.int 1), ("b", JVal.int 2)], JVal.dict [("a", JVal.int 3)]]))
    ∧ (∃ s, ("b", s) ∈ dictPairs (extract_common_list_structure
        [JVal.dict [("a", JVal.int 1), ("b", JVal.int 2)],
         JVal.dict [("a", JVal.int 3), ("b", JVal.int 4)],
         JVal.dict [("a", JVal.int 5)]])) := by
  constructor
  · intro hex
    have h := (C2_strict_majority_keys
        [JVal.dict [("a", JVal.int 1), ("b", JVal.int 2)], JVal.dict [("a", JVal.int 3)]]
        "b" (List.cons_ne_nil _ _) (by decide) (by decide)).mp hex
    rw [show presenceCount
          [JVal.dict [("a", JVal.int 1), ("b", JVal.int 2)], JVal.dict [("a", JVal.int 3)]]
          "b" = 1 from by decide,
        show (majorityItems
          [JVal.dict [("a", JVal.int 1), ("b", JVal.int 2)],
           JVal.dict [("a", JVal.int 3)]]).length = 2 from by decide] at h
    norm_num at h
  · refine (C2_strict_majority_keys
        [JVal.dict [("a", JVal.int 1), ("b", JVal.int 2)],
         JVal.dict [("a", JVal.int 3), ("b", JVal.int 4)], JVal.dict [("a", JVal.int 5)]]
        "b" (List.cons_ne_nil _ _) (by decide) (by decide)).mpr ?_
    rw [show presenceCount
          [JVal.dict [("a", JVal.int 1), ("b", JVal.int 2)],
           JVal.dict [("a", JVal.int 3), ("b", JVal.int 4)], JVal.dict [("a", JVal.int 5)]]
          "b" = 2 from by decide,
        show (majorityItems
          [JVal.dict [("a", JVal.int 1), ("b", JVal.int 2)],
           JVal.dict [("a", JVal.int 3), ("b", JVal.int 4)],
           JVal.dict [("a", JVal.int 5)]]).length = 3 from by decide]
    norm_num

/-- Python `str.lower()` (the header values involved are ASCII; `Char.toLower`
lowers exactly the ASCII uppercase range). -/
def pyLower (s : String) : String := String.mk (s.data.map Char.toLower)

/-- Python `str.strip()` with no argument: drop leading and trailing
whitespace. -/
def pyTrim (s : String) : String :=
  String.mk (((s.data.dropWhile Char.isWhitespace).reverse.dropWhile Char.isWhitespace).reverse)

/-- Helper for `pySplitSemi`: accumulates the current segment (reversed). -/
def splitSemiAux : List Char → List Char → List (List Char)
  | [], acc => [acc.reverse]
  | c :: cs, acc =>
    if c = ';' then acc.reverse :: splitSemiAux cs [] else splitSemiAux cs (c :: acc)

/-- Python `value.split(';')`: split on every `;`, keeping empty segments. -/
def pySplitSemi (s : String) : List String := (splitSemiAux s.data []).map String.mk

/-- Python `s.startswith(pre)`. -/
def pyStartsWith (s pre : String) : Bool := pre.data.isPrefixOf s.data

/-- Python `sub in s` substring containment. -/
def pyContains (s sub : String) : Bool :=
  s.data.tails.any (fun t => sub.data.isPrefixOf t)

/-- `_strip_content_disposition_filename` (source lines 212-225): split on
`;`, strip whitespace, drop segments starting with `filename=` or
`filename*=` (case-insensitive) and empty segments, rejoin with `"; "`. -/
def strip_content_disposition_filename (value : String) : String :=
  String.intercalate "; " (((pySplitSemi value).map pyTrim).filter
    (fun part =>
      (!(pyStartsWith (pyLower part) "filename=" || pyStartsWith (pyLower part) "filename*="))
        && (part != "")))

/-- `_strip_multipart_boundary` (source lines 228-241): split on `;`, strip
whitespace, drop segments starting with `boundary=` (case-insensitive) and
empty segments, rejoin with `"; "`. -/
def strip_multipart_boundary (value : String) : String :=
  String.intercalate "; " (((pySplitSemi value).map pyTrim).filter
    (fun part => (!(pyStartsWith (pyLower part) "boundary=")) && (part != "")))

/-- The `HeaderDiff` result of `compare_headers`. -/
structure HeaderDiff where
  added : List (String × String)
  removed : List (String × String)
  modified : List (String × String × String)
  identical : Bool

/-- Python `key in headers` / `headers[key]` on a header dict. -/
def lookupH (h : List (String × String)) (k : String) : Option String :=
  (h.find? (fun kv => kv.1 == k)).map Prod.snd

/-- `all_keys = set(headers1.keys()) | set(headers2.keys())`, modelled in
first-occurrence order (Python set order is unspecified; only the key SETS
of the three result maps matter to the claims). -/
def headerKeys (h1 h2 : List (String × String)) : List String :=
  pyNub (h1.map Prod.fst ++ h2.map Prod.fst)

/-- `compare_headers` (source lines 244-284).  The two `continue`
exceptions become `none` results; a key reaches `modified` only when it is
present on both sides with differing values and neither exception fires. -/
def compare_headers (headers1 headers2 : List (String × String))
    (ignore_content_disposition_filename : Bool) : HeaderDiff :=
  let allKeys := headerKeys headers1 headers2
  let added := allKeys.filterMap (fun k =>
    match lookupH headers1 k, lookupH headers2 k with
    | none, some v => some (k, v)
    | _, _ => none)
  let removed := allKeys.filterMap (fun k =>
    match lookupH headers1 k, lookupH headers2 k with
    | some v, none => some (k, v)
    | _, _ => none)
  let modified := allKeys.filterMap (fun k =>
    match lookupH headers1 k, lookupH headers2 k with
    | some v1, some v2 =>
      if v1 = v2 then none
      else if ignore_content_disposition_filename ∧ pyLower k = "content-disposition"
          ∧ strip_content_disposition_filename v1 = strip_content_disposition_filename v2 then
        none
      else if pyLower k = "content-type"
          ∧ pyContains (pyLower v1) "multipart/form-data" = true
          ∧ pyContains (pyLower v2) "multipart/form-data" = true
          ∧ strip_multipart_boundary v1 = strip_multipart_boundary v2 then
        none
      else some (k, v1, v2)
    | _, _ => none)
  ⟨added, removed, modified, added.isEmpty && removed.isEmpty && modified.isEmpty⟩

/-- C6: whatever the ignore flag, a `content-type` key whose two values both
contain `multipart/form-data` (case-insensitively) and agree after dropping
`boundary=` segments is never recorded in `modified`. -/
theorem C6_multipart_boundary_exception (headers1 headers2 : List (String × String))
    (flag : Bool) (v1 v2 : String)
    (h1 : lookupH headers1 "content-type" = some v1)
    (h2 : lookupH headers2 "content-type" = some v2)
    (hm1 : pyContains (pyLower v1) "multipart/form-data" = true)
    (hm2 : pyContains (pyLower v2) "multipart/form-data" = true)
    (hb : strip_multipart_boundary v1 = strip_multipart_boundary v2) :
    ∀ e ∈ (compare_headers headers1 headers2 flag).modified, e.1 ≠ "content-type" := by
  intro e he hk
  rcases List.mem_filterMap.mp he with ⟨k', hk', hf⟩
  split at hf
  · rename_i v1' v2' heq1 heq2
    split at hf
    · exact Option.noConfusion hf
    · split at hf
      · exact Option.noConfusion hf
      · split at hf
        · exact Option.noConfusion hf
        · rename_i hct
          have he1 : e.1 = k' := by
            rw [← Option.some_inj.mp hf]
          rw [he1] at hk
          subst hk
          rw [h1] at heq1
          rw [h2] at heq2
          have hv1 : v1' = v1 := (Option.some_inj.mp heq1).symm
          have hv2 : v2' = v2 := (Option.some_inj.mp heq2).symm
          subst hv1
          subst hv2
          exact hct ⟨rfl, hm1, hm2, hb⟩
  · exact Option.noConfusion hf

/-- Witness for C6: `boundary=X` versus `boundary=Y`, under both values of
the ignore flag. -/
theorem C6_witness :
    ((compare_headers [("content-type", "multipart/form-data; boundary=X")]
        [("content-type", "multipart/form-data; boundary=Y")] false).modified.all
      (fun e => e.1 != "content-type")
    && (compare_headers [("content-type", "multipart/form-data; boundary=X")]
        [("content-type", "multipart/form-data; boundary=Y")] true).modified.all
      (fun e => e.1 != "content-type")) = true := by
  have hf := C6_multipart_boundary_exception
      [("content-type", "multipart/form-data; boundary=X")]
      [("content-type", "multipart/form-data; boundary=Y")] false
      "multipart/form-data; boundary=X" "multipart/form-data; boundary=Y"
      rfl rfl (by decide) (by decide) (by decide)
  have ht := C6_multipart_boundary_exception
      [("content-type", "multipart/form-data; boundary=X")]
      [("content-type", "multipart/form-data; boundary=Y")] true
      "multipart/form-data; boundary=X" "multipart/form-data; boundary=Y"
      rfl rfl (by decide) (by decide) (by decide)
  rw [Bool.and_eq_true, List.all_eq_true, List.all_eq_true]
  constructor
  · intro e he
    simpa using hf e he
  · intro e he
    simpa using ht e he

/-- `True` exactly on Python `None` (`JVal.null`), the parser's marker for
an absent body, which Python does not distinguish from JSON null. -/
def JVal.isNull : JVal → Bool
  | .null => true
  | _ => false

/-- The `request` sub-dict of a parsed exchange (`har_parser` entry shape).
A body of `JVal.null` is Python `None`: the parser's absent-body marker. -/
structure RequestData where
  headers : List (String × String)
  body : JVal

/-- The `response` sub-dict of a parsed exchange. -/
structure ResponseData where
  status : Int
  headers : List (String × String)
  body : JVal

/-- One parsed exchange (the entry dict built by the HAR parser — see
src/har_parser.py `parse_har_file` for the shape).  `name` is the explicit
endpoint identifier of name-based matching; modelled from the spec, since
`libs/har_parser.py` (with `require_name`/`group_apis_by_name`) is not under
src/. -/
structure Exchange where
  name : String
  original_url : String
  normalized_path : String
  method : String
  request : RequestData
  response : ResponseData

/-- The dict returned by `compare_request_structures`. -/
structure RequestComparison where
  method_identical : Bool
  headers : HeaderDiff
  body : Option (List DiffRecord)

/-- The `status` sub-dict of `compare_response_structures`. -/
structure StatusDiff where
  legacy : Int
  nextgen : Int
  identical : Bool

/-- The dict returned by `compare_response_structures`. -/
structure ResponseComparison where
  status : StatusDiff
  headers : HeaderDiff
  body : Option (List DiffRecord)

/-- `compare_request_structures` (source lines 287-304).  The header
comparison uses the default `ignore_content_disposition_filename=False`.
`body` is `none` exactly when `if legacy_req['body'] or nextgen_req['body']`
is falsy — Python truthiness, not mere presence. -/
def compare_request_structures (legacy_entry nextgen_entry : Exchange) : RequestComparison :=
  ⟨legacy_entry.method == nextgen_entry.method,
   compare_headers legacy_entry.request.headers nextgen_entry.request.headers false,
   if pyTruthy legacy_entry.request.body || pyTruthy nextgen_entry.request.body then
     some (deep_compare_json legacy_entry.request.body nextgen_entry.request.body "")
   else none⟩

/-- `compare_response_structures` (source lines 307-335); headers compared
with `ignore_content_disposition_filename=True`. -/
def compare_response_structures (legacy_entry nextgen_entry : Exchange) : ResponseComparison :=
  ⟨⟨legacy_entry.response.status, nextgen_entry.response.status,
    legacy_entry.response.status == nextgen_entry.response.status⟩,
   compare_headers legacy_entry.response.headers nextgen_entry.response.headers true,
   if pyTruthy legacy_entry.response.body || pyTruthy nextgen_entry.response.body then
     some (deep_compare_json legacy_entry.response.body nextgen_entry.response.body "")
   else none⟩

/-- C7 counterexample: a present but empty-object request body (`{}`,
Python-falsy) on the legacy side against an absent (`None`) body on the
nextgen side — a body IS present, yet the diff field is absent, refuting
"non-absent iff at least one body is present". -/
theorem C7_counterexample :
    ¬(((compare_request_structures
        ⟨"k", "u", "p", "GET", ⟨[], JVal.dict []⟩, ⟨200, [], JVal.null⟩⟩
        ⟨"k", "u", "p", "GET", ⟨[], JVal.null⟩, ⟨200, [], JVal.null⟩⟩).body.isSome = true)
      ↔ (((JVal.dict []).isNull = false) ∨ ((JVal.null).isNull = false))) := by
  decide

/-- C7 amended: the body diff field of the request (and response) comparison
is computed exactly when at least one of the two bodies is TRUTHY in
Python's sense (`if legacy_req['body'] or nextgen_req['body']`): a present
but falsy body — empty object or array, empty string, zero, false, or null —
counts as absent. -/
theorem C7_body_truthiness (e1 e2 : Exchange) :
    ((compare_request_structures e1 e2).body.isSome
        = (pyTruthy e1.request.body || pyTruthy e2.request.body))
    ∧ ((compare_response_structures e1 e2).body.isSome
        = (pyTruthy e1.response.body || pyTruthy e2.response.body)) := by
  constructor
  · by_cases h : (pyTruthy e1.request.body || pyTruthy e2.request.body) = true
    · simp [compare_request_structures, h]
    · simp only [Bool.not_eq_true] at h
      simp [compare_request_structures, h]
  · by_cases h : (pyTruthy e1.response.body || pyTruthy e2.response.body) = true
    · simp [compare_response_structures, h]
    · simp only [Bool.not_eq_true] at h
      simp [compare_response_structures, h]

/-- Modelled from the spec: `group_apis_by_name` of `libs/har_parser.py` is
not under src/.  Per spec section 4.4 it groups exchanges into a
`map<endpointKey, CapturedExchange[]>` preserving input order within each
bucket, with keys in insertion (first-occurrence) order — the same loop
shape as the sibling `group_apis_by_endpoint` in src/har_parser.py, keyed by
the explicit per-exchange name. -/
def group_apis_by_name (entries : List Exchange) : List (String × List Exchange) :=
  (pyNub (entries.map (fun e => e.name))).map
    (fun k => (k, entries.filter (fun e => e.name == k)))

/-- Python `grouped[key]` on a grouped map. -/
def lookupG (g : List (String × List Exchange)) (k : String) : Option (List Exchange) :=
  (g.find? (fun kv => kv.1 == k)).map Prod.snd

/-- Metadata entry for a key present on only one side (source lines
380-398). -/
structure OnlyDetail where
  url : String
  method : String
  path : String

/-- The per-key comparison dict (source lines 373-378). -/
structure EndpointComparison where
  request : RequestComparison
  response : ResponseComparison
  legacy_url : String
  nextgen_url : String

/-- The summary dict (source lines 401-407). -/
structure Summary where
  total_legacy_apis : Nat
  total_nextgen_apis : Nat
  common_apis : Nat
  legacy_only : Nat
  nextgen_only : Nat

/-- The dict returned by `compare_apis` (source lines 400-411). -/
structure ComparisonReport where
  summary : Summary
  common_endpoints : List (String × EndpointComparison)
  legacy_only : List (String × OnlyDetail)
  nextgen_only : List (String × OnlyDetail)

/-- The value stored in `key_comparisons[key]` (source lines 370-378). -/
def endpoint_comparison (legacy_entry nextgen_entry : Exchange) : EndpointComparison :=
  ⟨compare_request_structures legacy_entry nextgen_entry,
   compare_response_structures legacy_entry nextgen_entry,
   legacy_entry.original_url, nextgen_entry.original_url⟩

/-- `compare_apis` (source lines 338-411) from the point after the two HAR
files are parsed (`parse_har_file` is file I/O, external to the core):
group both sides by name, split the key sets, and for every common key
compare `legacy_grouped[key][0]` against `nextgen_grouped[key][0]` — the
first exchange of each bucket.  Python iterates sets for the key
partitions; the embedding fixes first-occurrence orders, which only affects
the order of the result lists.  The `none` fall-through arms of the matches
are unreachable: every common key has a non-empty bucket on both sides. -/
def compare_apis_entries (legacy_entries nextgen_entries : List Exchange) : ComparisonReport :=
  let legacy_grouped := group_apis_by_name legacy_entries
  let nextgen_grouped := group_apis_by_name nextgen_entries
  let legacy_keys := legacy_grouped.map Prod.fst
  let nextgen_keys := nextgen_grouped.map Prod.fst
  let common_keys := legacy_keys.filter (fun k => nextgen_keys.contains k)
  let legacy_only_keys := legacy_keys.filter (fun k => !(nextgen_keys.contains k))
  let nextgen_only_keys := nextgen_keys.filter (fun k => !(legacy_keys.contains k))
  let key_comparisons := common_keys.filterMap (fun k =>
    match lookupG legacy_grouped k, lookupG nextgen_grouped k with
    | some (e1 :: _), some (e2 :: _) => some (k, endpoint_comparison e1 e2)
    | _, _ => none)
  let legacy_only_details := legacy_only_keys.filterMap (fun k =>
    match lookupG legacy_grouped k with
    | some (e :: _) => some (k, OnlyDetail.mk e.original_url e.method e.normalized_path)
    | _ => none)
  let nextgen_only_details := nextgen_only_keys.filterMap (fun k =>
    match lookupG nextgen_grouped k with
    | some (e :: _) => some (k, OnlyDetail.mk e.original_url e.method e.normalized_path)
    | _ => none)
  ⟨⟨legacy_grouped.length, nextgen_grouped.length, common_keys.length,
    legacy_only_keys.length, nextgen_only_keys.length⟩,
   key_comparisons, legacy_only_details, nextgen_only_details⟩

theorem find?_head_filter (p : Exchange → Bool) :
    ∀ (l : List Exchange), l.find? p = (l.filter p).head? := by
  intro l
  induction l with
  | nil => simp
  | cons a as ih =>
    by_cases ha : p a
    · rw [List.find?_cons_of_pos _ ha, List.filter_cons_of_pos ha, List.head?_cons]
    · rw [List.find?_cons_of_neg _ (by simp [ha]), List.filter_cons_of_neg (by simp [ha]), ih]

theorem find?_map_pair (f : String → List Exchange) :
    ∀ (keys : List String) (k : String), k ∈ keys →
    ((keys.map (fun k' => (k', f k'))).find? (fun kv => kv.1 == k)) = some (k, f k) := by
  intro keys
  induction keys with
  | nil => intro k hk; cases hk
  | cons a ks ih =>
    intro k hk
    rw [List.map_cons]
    by_cases hak : a = k
    · subst hak
      exact List.find?_cons_of_pos _ (by simp)
    · rw [List.find?_cons_of_neg _ (by simp [hak])]
      exact ih k (by
        rcases List.mem_cons.mp hk with rfl | h
        · exact absurd rfl hak
        · exact h)

theorem lookupG_group (entries : List Exchange) (k : String)
    (hk : k ∈ pyNub (entries.map (fun e => e.name))) :
    lookupG (group_apis_by_name entries) k
      = some (entries.filter (fun e => e.name == k)) := by
  rw [lookupG, group_apis_by_name, find?_map_pair _ _ _ hk]
  rfl

theorem find?_filterMap_of_mem {β : Type} (F : String → Option (String × β)) (k : String)
    (x : String × β) (hfst : ∀ k' y, F k' = some y → y.1 = k') :
    ∀ (keys : List String), keys.Nodup → k ∈ keys → F k = some x →
    ((keys.filterMap F).find? (fun kv => kv.1 == k)) = some x := by
  intro keys
  induction keys with
  | nil => intro _ hk; cases hk
  | cons a ks ih =>
    intro hnd hk hFk
    rw [List.filterMap_cons]
    rcases List.mem_cons.mp hk with rfl | hk'
    · rw [hFk]
      refine List.find?_cons_of_pos _ ?_
      simp [hfst k x hFk]
    · have hak : a ≠ k := by
        intro h
        exact (List.nodup_cons.mp hnd).1 (h ▸ hk')
      cases hFa : F a with
      | none => exact ih (List.nodup_cons.mp hnd).2 hk' hFk
      | some y =>
        rw [List.find?_cons_of_neg _ (by simp [hfst a y hFa, hak])]
        exact ih (List.nodup_cons.mp hnd).2 hk' hFk

theorem group_keys_eq (entries : List Exchange) :
    (group_apis_by_name entries).map Prod.fst = pyNub (entries.map (fun e => e.name)) := by
  rw [group_apis_by_name, List.map_map]
  exact List.map_id _

/-- C9: the aggregator's entry for a common key is exactly the comparison of
the FIRST legacy exchange and the FIRST nextgen exchange bearing that key in
input order (`grouped[key][0]`); no later exchange with the same key enters
the computation of that entry. -/
theorem C9_first_occurrence_representatives
    (legacy_entries nextgen_entries : List Exchange) (k : String) (e1 e2 : Exchange)
    (hl : legacy_entries.find? (fun e => e.name == k) = some e1)
    (hn : nextgen_entries.find? (fun e => e.name == k) = some e2) :
    ((compare_apis_entries legacy_entries nextgen_entries).common_endpoints.find?
        (fun kv => kv.1 == k))
      = some (k, endpoint_comparison e1 e2) := by
  have hmeml : e1 ∈ legacy_entries := List.mem_of_find?_eq_some hl
  have hpl : (e1.name == k) = true := by
    have := List.find?_some hl
    simpa using this
  have hkl : k ∈ legacy_entries.map (fun e => e.name) :=
    List.mem_map.mpr ⟨e1, hmeml, by simpa using hpl⟩
  have hklnub : k ∈ pyNub (legacy_entries.map (fun e => e.name)) := mem_pyNub.mpr hkl
  have hmemn : e2 ∈ nextgen_entries := List.mem_of_find?_eq_some hn
  have hpn : (e2.name == k) = true := by
    have := List.find?_some hn
    simpa using this
  have hkn : k ∈ nextgen_entries.map (fun e => e.name) :=
    List.mem_map.mpr ⟨e2, hmemn, by simpa using hpn⟩
  have hknnub : k ∈ pyNub (nextgen_entries.map (fun e => e.name)) := mem_pyNub.mpr hkn
  have hfl : ∃ t, legacy_entries.filter (fun e => e.name == k) = e1 :: t := by
    have := find?_head_filter (fun e => e.name == k) legacy_entries
    rw [hl] at this
    cases hc : legacy_entries.filter (fun e => e.name == k) with
    | nil => rw [hc] at this; exact Option.noConfusion this
    | cons x t =>
      rw [hc, List.head?_cons] at this
      exact ⟨t, by rw [Option.some_inj.mp this.symm]⟩
  have hfn : ∃ t, nextgen_entries.filter (fun e => e.name == k) = e2 :: t := by
    have := find?_head_filter (fun e => e.name == k) nextgen_entries
    rw [hn] at this
    cases hc : nextgen_entries.filter (fun e => e.name == k) with
    | nil => rw [hc] at this; exact Option.noConfusion this
    | cons x t =>
      rw [hc, List.head?_cons] at this
      exact ⟨t, by rw [Option.some_inj.mp this.symm]⟩
  rcases hfl with ⟨t1, hfl⟩
  rcases hfn with ⟨t2, hfn⟩
  have hce : (compare_apis_entries legacy_entries nextgen_entries).common_endpoints
      = ((((group_apis_by_name legacy_entries).map Prod.fst).filter
          (fun k' => ((group_apis_by_name nextgen_entries).map Prod.fst).contains k')).filterMap
          (fun k' =>
            match lookupG (group_apis_by_name legacy_entries) k',
                lookupG (group_apis_by_name nextgen_entries) k' with
            | some (x1 :: _), some (x2 :: _) => some (k', endpoint_comparison x1 x2)
            | _, _ => none)) := rfl
  rw [hce]
  apply find?_filterMap_of_mem
  · intro k' y hy
    split at hy
    · exact ((Prod.mk.inj (Option.some_inj.mp hy)).1).symm ▸ rfl
    · exact Option.noConfusion hy
  · exact List.Nodup.filter _ (by rw [group_keys_eq]; exact pyNub_nodup _)
  · refine List.mem_filter.mpr ⟨?_, ?_⟩
    · rw [group_keys_eq]
      exact hklnub
    · rw [group_keys_eq]
      exact List.elem_eq_true_of_mem hknnub
  · rw [lookupG_group _ _ hklnub, lookupG_group _ _ hknnub, hfl, hfn]

/-- Witness for C9: two legacy exchanges share key `"k"`; the entry compared
is the first of them against the single nextgen exchange. -/
theorem C9_witness :
    ((compare_apis_entries
        [⟨"k", "uA1", "p", "GET", ⟨[], JVal.null⟩, ⟨200, [], JVal.null⟩⟩,
         ⟨"k", "uA2", "p", "GET", ⟨[], JVal.null⟩, ⟨500, [], JVal.null⟩⟩]
        [⟨"k", "uB1", "p", "GET", ⟨[], JVal.null⟩, ⟨200, [], JVal.null⟩⟩]).common_endpoints.find?
        (fun kv => kv.1 == "k"))
      = some ("k", endpoint_comparison
          ⟨"k", "uA1", "p", "GET", ⟨[], JVal.null⟩, ⟨200, [], JVal.null⟩⟩
          ⟨"k", "uB1", "p", "GET", ⟨[], JVal.null⟩, ⟨200, [], JVal.null⟩⟩) :=
  C9_first_occurrence_representatives _ _ "k" _ _ rfl rfl

/-- Outcome of running the engine under a fuel bound with Python's failure
channels explicit: `ok` is a normal return, `exn` a raised exception, and
`fuelOut` means the recursion did not finish within the given fuel. -/
inductive PyResult (α : Type) : Type where
  | ok : α → PyResult α
  | exn : String → PyResult α
  | fuelOut : PyResult α

/-- Sequencing that propagates `exn` and `fuelOut`. -/
def PyResult.bind {α β : Type} : PyResult α → (α → PyResult β) → PyResult β
  | .ok a, f => f a
  | .exn e, _ => .exn e
  | .fuelOut, _ => .fuelOut

/- Fuel-instrumented mirror of `extract_common_list_structure`, with each
operation of the source that can raise made an explicit check: `max()` over
the type counts raises `ValueError` on an empty sequence (line 62), as does
the inner `max` over the value types (line 89, guarded by `len(values) > 0`);
`item.items()` on a non-dict raises `AttributeError` (line 72);
`all_nested_items.extend(item)` on a non-iterable raises `TypeError`
(line 111, strengthened here to "non-list").  `eclsKeysFuel` is the `for
key, count in key_counts.items()` loop (lines 82-102). -/
mutual
def eclsFuel : Nat → List JVal → PyResult JVal
  | 0, _ => .fuelOut
  | fuel+1, items =>
    if items.length = 0 then .ok (JVal.list [])
    else if tagList items = [] then .exn "ValueError: max() arg is an empty sequence"
    else if mostCommonType items = "dict" then
      (if ¬ (majorityItems items).all (fun it => typeName it == "dict") then
        .exn "AttributeError: items"
      else
        (eclsKeysFuel fuel items (dictKeysOf items)).bind (fun cs => .ok (JVal.dict cs)))
    else if mostCommonType items = "list" then
      (if ¬ (majorityItems items).all (fun it => typeName it == "list") then
        .exn "TypeError: argument is not iterable"
      else if 0 < ((majorityItems items).flatMap listElems).length then
        (eclsFuel fuel ((majorityItems items).flatMap listElems)).bind
          (fun s => .ok (JVal.list [s]))
      else .ok (JVal.list []))
    else .ok (JVal.str (mostCommonType items))
termination_by fuel items => (fuel, 0)

def eclsKeysFuel : Nat → List JVal → List String → PyResult (List (String × JVal))
  | _, _, [] => .ok []
  | fuel, items, k :: ks =>
    if (keyCount items k : ℚ) > ((majorityItems items).length : ℚ) / 2 then
      (if 0 < (keyValues items k).length then
        (if pyNub ((keyValues items k).map typeName) = [] then
          .exn "ValueError: max() arg is an empty sequence"
        else if mcValueType items k = "dict" then
          (eclsFuel fuel (sameTypedValues items k)).bind (fun s =>
            (eclsKeysFuel fuel items ks).bind (fun cs => .ok ((k, s) :: cs)))
        else if mcValueType items k = "list" then
          (eclsFuel fuel (sameTypedValues items k)).bind (fun s =>
            (eclsKeysFuel fuel items ks).bind (fun cs => .ok ((k, s) :: cs)))
        else
          (eclsKeysFuel fuel items ks).bind
            (fun cs => .ok ((k, JVal.str (mcValueType items k)) :: cs)))
      else eclsKeysFuel fuel items ks)
    else eclsKeysFuel fuel items ks
termination_by fuel items keys => (fuel, keys.length + 1)
end

/- Fuel-instrumented mirror of `deep_compare_json`: `diffKeysFuel` is the
`for key in all_keys` loop (lines 152-169), where a key in neither dict
would raise `KeyError` at `obj2[key]` (line 159); the list branch runs the
two `extract_common_list_structure` calls under the same fuel. -/
mutual
def diffFuel : Nat → JVal → JVal → String → PyResult (List DiffRecord)
  | 0, _, _, _ => .fuelOut
  | fuel+1, obj1, obj2, path =>
    if typeName obj1 ≠ typeName obj2 then .ok [mismatchRecord path obj1 obj2]
    else
      match obj1, obj2 with
      | JVal.dict kvs1, JVal.dict kvs2 =>
        diffKeysFuel fuel kvs1 kvs2 path (unionKeys kvs1 kvs2)
      | JVal.list xs1, JVal.list xs2 =>
        if 0 < xs1.length ∧ 0 < xs2.length then
          (eclsFuel fuel xs1).bind (fun s1 =>
            (eclsFuel fuel xs2).bind (fun s2 =>
              diffFuel fuel s1 s2 (if path ≠ "" then path ++ "[*]" else "[*]")))
        else if 0 < xs1.length ∧ xs2.length = 0 then
          (eclsFuel fuel xs1).bind (fun s =>
            .ok [removedRecord (if path ≠ "" then path ++ "[*]" else "[*]") s])
        else if xs1.length = 0 ∧ 0 < xs2.length then
          (eclsFuel fuel xs2).bind (fun s =>
            .ok [addedRecord (if path ≠ "" then path ++ "[*]" else "[*]") s])
        else .ok []
      | _, _ => .ok []
termination_by fuel obj1 obj2 path => (fuel, 0)

def diffKeysFuel : Nat → List (String × JVal) → List (String × JVal) → String →
    List String → PyResult (List DiffRecord)
  | _, _, _, _, [] => .ok []
  | fuel, kvs1, kvs2, path, key :: ks =>
    let head : PyResult (List DiffRecord) :=
      match lookupJ kvs1 key, lookupJ kvs2 key with
      | none, some v2 =>
        .ok [addedRecord (if path ≠ "" then path ++ "." ++ key else key) v2]
      | some v1, none =>
        .ok [removedRecord (if path ≠ "" then path ++ "." ++ key else key) v1]
      | some v1, some v2 =>
        diffFuel fuel v1 v2 (if path ≠ "" then path ++ "." ++ key else key)
      | none, none => .exn "KeyError"
    head.bind (fun rs =>
      (diffKeysFuel fuel kvs1 kvs2 path ks).bind (fun rest => .ok (rs ++ rest)))
termination_by fuel kvs1 kvs2 path keys => (fuel, keys.length + 1)
end

theorem typeName_eq_null {v : JVal} (h : typeName v = "NoneType") : v = JVal.null := by
  cases v
  case null => rfl
  all_goals (simp only [typeName] at h; exact absurd h (by decide))

theorem typeName_eq_bool {v : JVal} (h : typeName v = "bool") : ∃ b, v = JVal.bool b := by
  cases v
  case bool b => exact ⟨b, rfl⟩
  all_goals (simp only [typeName] at h; exact absurd h (by decide))

theorem typeName_eq_int {v : JVal} (h : typeName v = "int") : ∃ n, v = JVal.int n := by
  cases v
  case int n => exact ⟨n, rfl⟩
  all_goals (simp only [typeName] at h; exact absurd h (by decide))

theorem typeName_eq_float {v : JVal} (h : typeName v = "float") : ∃ q, v = JVal.float q := by
  cases v
  case float q => exact ⟨q, rfl⟩
  all_goals (simp only [typeName] at h; exact absurd h (by decide))

theorem typeName_eq_str {v : JVal} (h : typeName v = "str") : ∃ s, v = JVal.str s := by
  cases v
  case str s => exact ⟨s, rfl⟩
  all_goals (simp only [typeName] at h; exact absurd h (by decide))

theorem eclsKeysFuel_ok (fuel : Nat) (items : List JVal)
    (hfuel : ∀ sub : List JVal, maxDepthL sub < fuel →
      eclsFuel fuel sub = PyResult.ok (extract_common_list_structure sub))
    (hdepth : ∀ k : String, maxDepthL (sameTypedValues items k) < fuel) :
    ∀ keys : List String,
      eclsKeysFuel fuel items keys = PyResult.ok (keys.filterMap (fun k =>
        if (keyCount items k : ℚ) > ((majorityItems items).length : ℚ) / 2 then
          (if 0 < (keyValues items k).length then
            (if mcValueType items k = "dict" then
              some (k, extract_common_list_structure (sameTypedValues items k))
            else if mcValueType items k = "list" then
              some (k, extract_common_list_structure (sameTypedValues items k))
            else some (k, JVal.str (mcValueType items k)))
          else none)
        else none)) := by
  intro keys
  induction keys with
  | nil => rw [eclsKeysFuel]; rfl
  | cons k ks ih =>
    rw [eclsKeysFuel, List.filterMap_cons]
    by_cases h1 : (keyCount items k : ℚ) > ((majorityItems items).length : ℚ) / 2
    · rw [if_pos h1, if_pos h1]
      by_cases h2 : 0 < (keyValues items k).length
      · rw [if_pos h2, if_pos h2]
        have hvne : (keyValues items k).map typeName ≠ [] := by
          intro h
          have : keyValues items k = [] := List.map_eq_nil_iff.mp h
          rw [this] at h2
          simp at h2
        rw [if_neg (pyNub_ne_nil hvne)]
        have hecls := hfuel (sameTypedValues items k) (hdepth k)
        by_cases h3 : mcValueType items k = "dict"
        · rw [if_pos h3, if_pos h3, hecls, ih]
          rfl
        · rw [if_neg h3, if_neg h3]
          by_cases h4 : mcValueType items k = "list"
          · rw [if_pos h4, if_pos h4, hecls, ih]
            rfl
          · rw [if_neg h4, if_neg h4, ih]
            rfl
      · rw [if_neg h2, if_neg h2, ih]
    · rw [if_neg h1, if_neg h1, ih]

theorem eclsFuel_ok : ∀ (n : Nat) (items : List JVal), maxDepthL items < n →
    eclsFuel n items = PyResult.ok (extract_common_list_structure items) := by
  intro n
  induction n using Nat.strong_induction_on with
  | _ n ih =>
    intro items hd
    cases n with
    | zero => omega
    | succ fuel =>
      rw [eclsFuel, extract_common_list_structure]
      by_cases h0 : items.length = 0
      · rw [if_pos h0, dif_pos h0]
      · rw [if_neg h0, dif_neg h0]
        have hne : items ≠ [] := fun h => h0 (by rw [h]; rfl)
        rw [if_neg (tagList_ne_nil hne)]
        have hdle : maxDepthL items ≤ fuel := Nat.lt_succ_iff.mp hd
        by_cases hmc : mostCommonType items = "dict"
        · rw [if_pos hmc, dif_pos hmc]
          have halld : ((majorityItems items).all (fun it => typeName it == "dict")) = true := by
            rw [List.all_eq_true]
            intro it hit
            have h2 := (List.mem_filter.mp hit).2
            rw [hmc] at h2
            exact h2
          rw [if_neg (fun hC => hC halld)]
          have hkeys := eclsKeysFuel_ok fuel items
            (fun sub hsub => ih fuel (Nat.lt_succ_self fuel) sub hsub)
            (fun k => lt_of_lt_of_le (sameTyped_depth_lt items k hne hmc) hdle)
            (dictKeysOf items)
          rw [hkeys]
          rfl
        · rw [if_neg hmc, dif_neg hmc]
          by_cases hml : mostCommonType items = "list"
          · rw [if_pos hml, dif_pos hml]
            have halll : ((majorityItems items).all (fun it => typeName it == "list")) = true := by
              rw [List.all_eq_true]
              intro it hit
              have h2 := (List.mem_filter.mp hit).2
              rw [hml] at h2
              exact h2
            rw [if_neg (fun hC => hC halll)]
            by_cases hnp : 0 < ((majorityItems items).flatMap listElems).length
            · rw [if_pos hnp, if_pos hnp]
              have hrec := ih fuel (Nat.lt_succ_self fuel)
                ((majorityItems items).flatMap listElems)
                (lt_of_lt_of_le (nested_depth_lt items hne hml) hdle)
              rw [hrec]
              rfl
            · rw [if_neg hnp, if_neg hnp]
          · rw [if_neg hml, dif_neg hml]

theorem diff_dict_flatMap (kvs1 kvs2 : List (String × JVal)) (path : String) :
    deep_compare_json (JVal.dict kvs1) (JVal.dict kvs2) path
      = (unionKeys kvs1 kvs2).flatMap (fun key =>
          match lookupJ kvs1 key, lookupJ kvs2 key with
          | none, some v2 => [addedRecord (if path ≠ "" then path ++ "." ++ key else key) v2]
          | some v1, none => [removedRecord (if path ≠ "" then path ++ "." ++ key else key) v1]
          | some v1, some v2 =>
              deep_compare_json v1 v2 (if path ≠ "" then path ++ "." ++ key else key)
          | none, none => []) := by
  rw [deep_compare_json, if_neg (fun h => h rfl)]
  refine congrArg _ (funext fun key => ?_)
  rcases h1 : lookupJ kvs1 key with _ | v1 <;> rcases h2 : lookupJ kvs2 key with _ | v2 <;>
    simp only [h1, h2]

theorem mem_unionKeys_not_both_none (kvs1 kvs2 : List (String × JVal)) (key : String)
    (hk : key ∈ unionKeys kvs1 kvs2) :
    ¬(lookupJ kvs1 key = none ∧ lookupJ kvs2 key = none) := by
  rintro ⟨hn1, hn2⟩
  have hmem := mem_pyNub.mp hk
  rcases List.mem_append.mp hmem with hm | hm
  · rcases List.mem_map.mp hm with ⟨pr, hpr, hfst⟩
    have : (kvs1.find? (fun q => q.1 == key)).isSome := by
      rw [List.find?_isSome]
      exact ⟨pr, hpr, by simp [hfst]⟩
    rw [lookupJ] at hn1
    rcases Option.isSome_iff_exists.mp this with ⟨q, hq⟩
    rw [hq] at hn1
    exact Option.noConfusion hn1
  · rcases List.mem_map.mp hm with ⟨pr, hpr, hfst⟩
    have : (kvs2.find? (fun q => q.1 == key)).isSome := by
      rw [List.find?_isSome]
      exact ⟨pr, hpr, by simp [hfst]⟩
    rw [lookupJ] at hn2
    rcases Option.isSome_iff_exists.mp this with ⟨q, hq⟩
    rw [hq] at hn2
    exact Option.noConfusion hn2

theorem diffKeysFuel_ok (fuel : Nat) (kvs1 kvs2 : List (String × JVal)) (path : String)
    (hfuel : ∀ v1 v2 (p' : String), jdepth v1 + jdepth v2 < fuel →
      diffFuel fuel v1 v2 p' = PyResult.ok (deep_compare_json v1 v2 p'))
    (hdv : ∀ key v1 v2, lookupJ kvs1 key = some v1 → lookupJ kvs2 key = some v2 →
      jdepth v1 + jdepth v2 < fuel) :
    ∀ keys : List String,
      (∀ key ∈ keys, ¬(lookupJ kvs1 key = none ∧ lookupJ kvs2 key = none)) →
      diffKeysFuel fuel kvs1 kvs2 path keys
        = PyResult.ok (keys.flatMap (fun key =>
            match lookupJ kvs1 key, lookupJ kvs2 key with
            | none, some v2 =>
                [addedRecord (if path ≠ "" then path ++ "." ++ key else key) v2]
            | some v1, none =>
                [removedRecord (if path ≠ "" then path ++ "." ++ key else key) v1]
            | some v1, some v2 =>
                deep_compare_json v1 v2 (if path ≠ "" then path ++ "." ++ key else key)
            | none, none => [])) := by
  intro keys
  induction keys with
  | nil =>
    intro _
    rw [diffKeysFuel]
    rfl
  | cons key ks ih =>
    intro hnn
    rw [diffKeysFuel, List.flatMap_cons]
    have hih := ih (fun k' hk' => hnn k' (List.mem_cons_of_mem _ hk'))
    rcases h1 : lookupJ kvs1 key with _ | v1 <;> rcases h2 : lookupJ kvs2 key with _ | v2 <;>
      simp only [h1, h2]
    · exact absurd ⟨h1, h2⟩ (hnn key (List.mem_cons_self _ _))
    · rw [hih]
      rfl
    · rw [hih]
      rfl
    · rw [hfuel v1 v2 _ (hdv key v1 v2 h1 h2), hih]
      rfl

theorem diff_catch_all (a b : JVal) (p : String) (hty : ¬typeName a ≠ typeName b)
    (hnd : ∀ kvs1 kvs2, a = JVal.dict kvs1 → b = JVal.dict kvs2 → False)
    (hnl : ∀ xs1 xs2, a = JVal.list xs1 → b = JVal.list xs2 → False) :
    deep_compare_json a b p = [] := by
  rw [deep_compare_json.eq_def, if_neg hty]
  rcases a with _ | _ | _ | _ | _ | xs1 | kvs1 <;>
    rcases b with _ | _ | _ | _ | _ | xs2 | kvs2 <;>
    first
      | exact (hnd _ _ rfl rfl).elim
      | exact (hnl _ _ rfl rfl).elim
      | rfl

theorem diffFuel_succ (fuel : Nat) (a b : JVal) (path : String) :
    diffFuel (fuel+1) a b path
      = (if typeName a ≠ typeName b then .ok [mismatchRecord path a b]
        else
          match a, b with
          | JVal.dict kvs1, JVal.dict kvs2 =>
            diffKeysFuel fuel kvs1 kvs2 path (unionKeys kvs1 kvs2)
          | JVal.list xs1, JVal.list xs2 =>
            if 0 < xs1.length ∧ 0 < xs2.length then
              (eclsFuel fuel xs1).bind (fun s1 =>
                (eclsFuel fuel xs2).bind (fun s2 =>
                  diffFuel fuel s1 s2 (if path ≠ "" then path ++ "[*]" else "[*]")))
            else if 0 < xs1.length ∧ xs2.length = 0 then
              (eclsFuel fuel xs1).bind (fun s =>
                .ok [removedRecord (if path ≠ "" then path ++ "[*]" else "[*]") s])
            else if xs1.length = 0 ∧ 0 < xs2.length then
              (eclsFuel fuel xs2).bind (fun s =>
                .ok [addedRecord (if path ≠ "" then path ++ "[*]" else "[*]") s])
            else .ok []
          | _, _ => .ok []) := by
  rw [diffFuel.eq_def]

theorem diffFuel_ok : ∀ (n : Nat) (a b : JVal) (p : String), jdepth a + jdepth b < n →
    diffFuel n a b p = PyResult.ok (deep_compare_json a b p) := by
  intro n
  induction n using Nat.strong_induction_on with
  | _ n ih =>
    intro a b p hd
    cases n with
    | zero => omega
    | succ fuel =>
      rw [diffFuel_succ]
      by_cases hty : typeName a ≠ typeName b
      · rw [if_pos hty, diff_eq_mismatch hty]
      · rw [if_neg hty]
        have htyeq : typeName a = typeName b := not_ne_iff.mp hty
        have hdle : jdepth a + jdepth b ≤ fuel := Nat.lt_succ_iff.mp hd
        rcases a with _ | b0 | n0 | q0 | s0 | xs1 | kvs1
        · have hb := typeName_eq_null htyeq.symm
          subst hb
          rw [diff_catch_all _ _ p hty (fun _ _ h _ => JVal.noConfusion h)
            (fun _ _ h _ => JVal.noConfusion h)]
        · rcases typeName_eq_bool htyeq.symm with ⟨b1, rfl⟩
          rw [diff_catch_all _ _ p hty (fun _ _ h _ => JVal.noConfusion h)
            (fun _ _ h _ => JVal.noConfusion h)]
        · rcases typeName_eq_int htyeq.symm with ⟨n1, rfl⟩
          rw [diff_catch_all _ _ p hty (fun _ _ h _ => JVal.noConfusion h)
            (fun _ _ h _ => JVal.noConfusion h)]
        · rcases typeName_eq_float htyeq.symm with ⟨q1, rfl⟩
          rw [diff_catch_all _ _ p hty (fun _ _ h _ => JVal.noConfusion h)
            (fun _ _ h _ => JVal.noConfusion h)]
        · rcases typeName_eq_str htyeq.symm with ⟨s1, rfl⟩
          rw [diff_catch_all _ _ p hty (fun _ _ h _ => JVal.noConfusion h)
            (fun _ _ h _ => JVal.noConfusion h)]
        · rcases typeName_eq_list htyeq.symm with ⟨xs2, rfl⟩
          have j1 : jdepth (JVal.list xs1) = 1 + maxDepthL xs1 := by rw [jdepth]
          have j2 : jdepth (JVal.list xs2) = 1 + maxDepthL xs2 := by rw [jdepth]
          by_cases h12 : 0 < xs1.length ∧ 0 < xs2.length
          · rw [diff_list_both p h12.1 h12.2]
            have he1 := eclsFuel_ok fuel xs1 (by omega)
            have he2 := eclsFuel_ok fuel xs2 (by omega)
            have hd1 := ecls_depth (List.length_pos.mp h12.1)
            have hd2 := ecls_depth (List.length_pos.mp h12.2)
            have hrec := ih fuel (Nat.lt_succ_self fuel)
              (extract_common_list_structure xs1) (extract_common_list_structure xs2)
              (if p ≠ "" then p ++ "[*]" else "[*]") (by omega)
            simp only [if_pos h12, he1, he2, PyResult.bind, hrec]
          · rw [show (match JVal.list xs1, JVal.list xs2 with
              | JVal.dict kvs1, JVal.dict kvs2 =>
                diffKeysFuel fuel kvs1 kvs2 p (unionKeys kvs1 kvs2)
              | JVal.list xs1, JVal.list xs2 =>
                if 0 < xs1.length ∧ 0 < xs2.length then
                  (eclsFuel fuel xs1).bind (fun s1 =>
                    (eclsFuel fuel xs2).bind (fun s2 =>
                      diffFuel fuel s1 s2 (if p ≠ "" then p ++ "[*]" else "[*]")))
                else if 0 < xs1.length ∧ xs2.length = 0 then
                  (eclsFuel fuel xs1).bind (fun s =>
                    .ok [removedRecord (if p ≠ "" then p ++ "[*]" else "[*]") s])
                else if xs1.length = 0 ∧ 0 < xs2.length then
                  (eclsFuel fuel xs2).bind (fun s =>
                    .ok [addedRecord (if p ≠ "" then p ++ "[*]" else "[*]") s])
                else .ok []
              | _, _ => .ok []) = (if 0 < xs1.length ∧ 0 < xs2.length then
                  (eclsFuel fuel xs1).bind (fun s1 =>
                    (eclsFuel fuel xs2).bind (fun s2 =>
                      diffFuel fuel s1 s2 (if p ≠ "" then p ++ "[*]" else "[*]")))
                else if 0 < xs1.length ∧ xs2.length = 0 then
                  (eclsFuel fuel xs1).bind (fun s =>
                    .ok [removedRecord (if p ≠ "" then p ++ "[*]" else "[*]") s])
                else if xs1.length = 0 ∧ 0 < xs2.length then
                  (eclsFuel fuel xs2).bind (fun s =>
                    .ok [addedRecord (if p ≠ "" then p ++ "[*]" else "[*]") s])
                else .ok []) from rfl]
            rw [if_neg h12]
            by_cases hr : 0 < xs1.length ∧ xs2.length = 0
            · rw [if_pos hr, diff_list_removed p hr.1 hr.2,
                eclsFuel_ok fuel xs1 (by omega)]
              rfl
            · rw [if_neg hr]
              by_cases ha : xs1.length = 0 ∧ 0 < xs2.length
              · rw [if_pos ha, diff_list_added p ha.1 ha.2,
                  eclsFuel_ok fuel xs2 (by omega)]
                rfl
              · rw [if_neg ha]
                have hx1 : xs1.length = 0 := by omega
                have hx2 : xs2.length = 0 := by omega
                rw [show xs1 = [] from List.length_eq_zero.mp hx1,
                    show xs2 = [] from List.length_eq_zero.mp hx2]
                rw [diff_refl]
        · rcases typeName_eq_dict htyeq.symm with ⟨kvs2, rfl⟩
          rw [diff_dict_flatMap]
          exact diffKeysFuel_ok fuel kvs1 kvs2 p
            (fun v1 v2 p' hlt => ih fuel (Nat.lt_succ_self fuel) v1 v2 p' hlt)
            (fun key v1 v2 hl1 hl2 => by
              have d1 := lookupJ_jdepth hl1
              have d2 := lookupJ_jdepth hl2
              omega)
            (unionKeys kvs1 kvs2)
            (fun key hk => mem_unionKeys_not_both_none kvs1 kvs2 key hk)

/-- C8: the structural differ is total over well-formed JSON values.  Run
under the fuel-instrumented mirrors — which return `fuelOut` if the
recursion does not finish and `exn` at every operation of the source that
could raise (`max()` on an empty sequence, `.items()` on a non-dict,
extending from a non-list, a `KeyError` dict access) — both
`deep_compare_json` and `extract_common_list_structure` finish within a
depth-bounded fuel and return `ok` of the total function's value on EVERY
input, including mixed-type arrays, nulls and absent bodies: no exception
and no divergence. -/
theorem C8_total_no_exception (a b : JVal) (p : String) (items : List JVal) :
    diffFuel (jdepth a + jdepth b + 1) a b p = PyResult.ok (deep_compare_json a b p)
    ∧ eclsFuel (maxDepthL items + 1) items
        = PyResult.ok (extract_common_list_structure items) :=
  ⟨diffFuel_ok _ a b p (by omega), eclsFuel_ok _ items (by omega)⟩
